import Mathlib

/-!
Verification development for the pto-isa A2/A3 task-graph runtime.

The repository contains two variants of the scheduler/worker pair:

* the "PTO" variant:
  `src/runtime/runtime_a2a3/core/aicpu/aicpu_kernel.cpp` (scheduler) and
  `src/runtime/runtime_a2a3/core/aicore/aicore_kernel.cpp` (worker), sharing
  the structures of `src/runtime/runtime_a2a3/core/common/pto_task.h`;

* the "graph executor" variant:
  `runtime/src/runtime/aicpu/graphexecutor.cpp` (scheduler loop) and
  `runtime/src/platform/a2a3/aicpu/kernel.cpp` (thread manager / entry point).

Both are embedded below.  Machine integers that only count (thread counts,
core ids, task ids, statuses) are modelled as `Nat`; the `fanin` /
`deps_remaining` counters, which the C code declares as signed `int` and
decrements unconditionally, are modelled as `Int`.  A `uint64_t` task
pointer is modelled as `Option Nat`: `none` is the null pointer `0`, and
`some tid` is the address `&tasks[tid]` (all such addresses are nonzero and
distinct, which is the only property the code relies on).  A C array
together with its length/count field is modelled as a `List`.
-/

/-! ## Part 1: the PTO variant (`pto_task.h`, `aicpu_kernel.cpp`, `aicore_kernel.cpp`) -/

/-- Task status value `PTO_TASK_PENDING` from `pto_task.h`. -/
def PTO_TASK_PENDING : Nat := 0

/-- Task status value `PTO_TASK_READY` from `pto_task.h`. -/
def PTO_TASK_READY : Nat := 1

/-- Task status value `PTO_TASK_RUNNING` from `pto_task.h`. -/
def PTO_TASK_RUNNING : Nat := 2

/-- Task status value `PTO_TASK_COMPLETE` from `pto_task.h`. -/
def PTO_TASK_COMPLETE : Nat := 3

/-- The `PTOTask` record of `pto_task.h`, restricted to the fields the
scheduler and worker read or write (`func_name`, `args` and the argument
counts are opaque payload for the scheduling logic).  `dependents` models
the first `num_dependents` entries of the C array. -/
structure PTOTask where
  task_id : Nat := 0
  func_id : Nat := 0
  functionBinAddr : Nat := 0
  dep_count : Nat := 0
  deps_remaining : Int := 0
  dependents : List Nat := []
  status : Nat := PTO_TASK_PENDING
  core_type : Nat := 0
deriving DecidableEq, Repr

/-- The `PTOHandshake` mailbox of `pto_task.h`.  `task` is the `uint64_t`
task pointer (`none` = 0). -/
structure PTOHandshake where
  aicpu_ready : Nat := 0
  aicore_done : Nat := 0
  control : Nat := 0
  task : Option Nat := none
  task_status : Nat := 0
  core_type : Nat := 0
deriving DecidableEq, Repr

/-- Scheduler-visible state of the PTO variant: the task array of the
`PTOTaskGraph` and the handshake array. -/
structure PTOState where
  tasks : List PTOTask
  cells : List PTOHandshake
deriving DecidableEq, Repr

/-- The inner search loop of `schedule_tasks` (`aicpu_kernel.cpp` lines
119-141): starting at index `idx`, return the index of the first task whose
`status` is `PTO_TASK_READY` and whose `core_type` matches. -/
def findReadyIdxAux : List PTOTask → Nat → Nat → Option Nat
  | [], _, _ => none
  | tk :: rest, ctype, idx =>
      if tk.status == PTO_TASK_READY && tk.core_type == ctype then some idx
      else findReadyIdxAux rest ctype (idx + 1)

/-- One iteration of the outer loop of `schedule_tasks` (`aicpu_kernel.cpp`
lines 107-142) for core `core_id`: skip the core when
`task != 0 && task_status != 0`, otherwise find a ready task of the core's
positional type (`core_id < aic_num` is Cube), mark it `PTO_TASK_RUNNING`
and publish it (`task` pointer, then `task_status = 1`). -/
def scheduleCore (aic_num : Nat) (st : PTOState) (core_id : Nat) : PTOState :=
  match st.cells[core_id]? with
  | none => st
  | some ch =>
      if ch.task.isSome && ch.task_status != 0 then st
      else
        let ctype := if core_id < aic_num then 0 else 1
        match findReadyIdxAux st.tasks ctype 0 with
        | none => st
        | some tid =>
            match st.tasks[tid]? with
            | none => st
            | some tk =>
                { tasks := st.tasks.set tid { tk with status := PTO_TASK_RUNNING },
                  cells := st.cells.set core_id
                    { ch with task := some tid, task_status := 1 } }

/-- The whole `schedule_tasks` pass of `aicpu_kernel.cpp` (lines 103-145),
iterating the cores `0 .. core_num - 1` in order. -/
def schedule_tasks (st : PTOState) (core_num aic_num : Nat) : PTOState :=
  (List.range core_num).foldl (scheduleCore aic_num) st

/-- The per-dependent body of the completion loop in `check_completions`
(`aicpu_kernel.cpp` lines 173-185): decrement `deps_remaining` and, when the
result is 0 and the dependent is still `PTO_TASK_PENDING`, mark it
`PTO_TASK_READY`. -/
def updateDep (tasks : List PTOTask) (dep_id : Nat) : List PTOTask :=
  match tasks[dep_id]? with
  | none => tasks
  | some dt =>
      let remaining := dt.deps_remaining - 1
      let dt' := if remaining = 0 ∧ dt.status = PTO_TASK_PENDING
                 then { dt with deps_remaining := remaining, status := PTO_TASK_READY }
                 else { dt with deps_remaining := remaining }
      tasks.set dep_id dt'

/-- The dependent-update loop of `check_completions` over the completing
task's `dependents` list. -/
def updateDeps (tasks : List PTOTask) (l : List Nat) : List PTOTask :=
  l.foldl updateDep tasks

/-- Observable outcome of one iteration of the worker polling loop. -/
inductive WorkerObs where
  | quit
  | run (tid : Nat)
  | idle
deriving DecidableEq, Repr

/-- One iteration of the worker polling loop of `aicore_kernel.cpp`
(lines 125-142): after the cache invalidate, exit on `control == 1`;
otherwise, when `task != 0`, call `execute_task` on the task pointer and
then clear `task_status`.  Note that the loop tests only the `task`
pointer, not `task_status`. -/
def aicoreBody (c : PTOHandshake) : WorkerObs × PTOHandshake :=
  if c.control = 1 then (WorkerObs.quit, c)
  else
    match c.task with
    | some tid => (WorkerObs.run tid, { c with task_status := 0 })
    | none => (WorkerObs.idle, c)

/-- Whether a worker-loop iteration dispatched a kernel. -/
def WorkerObs.isRun : WorkerObs → Bool
  | WorkerObs.run _ => true
  | _ => false

/-- A handshake cell holding a completed-but-uncollected task: the worker
has cleared `task_status` but the scheduler has not yet cleared `task`. -/
def completedCell : PTOHandshake :=
  { control := 0, task := some 1, task_status := 0, core_type := 0 }

/-- A two-task PTO graph: task 0 is ready (Cube), task 1 was running. -/
def ptoTasks2 : List PTOTask :=
  [ { task_id := 0, status := PTO_TASK_READY, core_type := 0 },
    { task_id := 1, status := PTO_TASK_RUNNING, core_type := 0 } ]

/-! ## Part 2: the thread manager (`runtime/src/platform/a2a3/aicpu/kernel.cpp`) -/

/-- Static limit `MAX_AICPU_THREADS` (`kernel.cpp` line 13). -/
def MAX_AICPU_THREADS : Nat := 4

/-- Static limit `MAX_AIC_PER_THREAD` (`kernel.cpp` line 14). -/
def MAX_AIC_PER_THREAD : Nat := 24

/-- Static limit `MAX_AIV_PER_THREAD` (`kernel.cpp` line 15). -/
def MAX_AIV_PER_THREAD : Nat := 48

/-- Static limit `MAX_CORES_PER_THREAD` (`kernel.cpp` line 16). -/
def MAX_CORES_PER_THREAD : Nat := MAX_AIC_PER_THREAD + MAX_AIV_PER_THREAD

/-- The row of `core_assignments_` computed for thread `t` by
`MultiThreadManager::Init` (`kernel.cpp` lines 60-74): one AIC core at
index `t` and the two AIV cores at `num_aic + t*2` and `num_aic + t*2 + 1`. -/
def coreAssignment (num_aic t : Nat) : List Nat :=
  [t, num_aic + t * 2, num_aic + t * 2 + 1]

/-- The scalar fields of `MultiThreadManager` set by `Init`. -/
structure MgrState where
  threadNum : Nat
  totalCores : Nat
  coresPerThread : Nat
  initDone : Bool
  initFailed : Bool
deriving DecidableEq, Repr

/-- `MultiThreadManager::Init` (`kernel.cpp` lines 30-79) as run by the
single thread that wins the `initialized_` compare-and-swap: clamp a zero
`scheCpuNum` to 1, compute `cores_per_thread`, and fail (setting
`init_failed_` and returning -1) when the thread count or the
cores-per-thread value exceeds its static maximum; otherwise set
`init_done_` and return 0. -/
def mtmInit (scheCpuNum coreNum : Nat) : Int × MgrState :=
  let tn := if scheCpuNum = 0 then 1 else scheCpuNum
  let cpt := coreNum / tn
  let base : MgrState :=
    { threadNum := tn, totalCores := coreNum, coresPerThread := cpt,
      initDone := false, initFailed := false }
  if tn < 1 ∨ tn > MAX_AICPU_THREADS then (-1, { base with initFailed := true })
  else if cpt > MAX_CORES_PER_THREAD then (-1, { base with initFailed := true })
  else (0, { base with initDone := true })

/-- The wait loop of `DynTileFwkBackendKernelServer` (`kernel.cpp` lines
250-259), run by every scheduler thread after `Init` has finished: spin
until `init_done_`, returning early (with -1, before `Run`) when
`init_failed_` is observed.  `some true` means the thread proceeds to its
execution loop, `some false` means it returns the error code -1 without
entering it, `none` means it spins forever (impossible after `mtmInit`,
which always sets one of the two flags). -/
def serverGate (m : MgrState) : Option Bool :=
  if m.initDone then some true
  else if m.initFailed then some false
  else none

/-! ## Part 3: shared state of `graphexecutor.cpp` touched by the exit barrier -/

/-- The six file-scope shared variables of `graphexecutor.cpp` that the
exit barrier (lines 210-221) reads or writes: the two ready-queue counts,
the two task counters, the init flag and the finish counter. -/
structure ExecShared where
  readyCountAic : Nat
  readyCountAiv : Nat
  completedTasks : Nat
  totalTasks : Nat
  initDone : Bool
  finishedCount : Nat
deriving DecidableEq, Repr

/-- The epilogue of `execute` (`graphexecutor.cpp` lines 210-221), run once
by each thread after its scheduling loop: atomically increment
`finished_count_`, and when the post-increment value equals `thread_num`
reset all six shared variables to zero / false. -/
def epilogue (thread_num : Nat) (st : ExecShared) : ExecShared :=
  let prev := st.finishedCount
  if prev + 1 = thread_num then
    { readyCountAic := 0, readyCountAiv := 0, completedTasks := 0,
      totalTasks := 0, initDone := false, finishedCount := 0 }
  else { st with finishedCount := prev + 1 }

/-- The fully cleared shared state that the last thread leaves behind. -/
def clearedShared : ExecShared :=
  { readyCountAic := 0, readyCountAiv := 0, completedTasks := 0,
    totalTasks := 0, initDone := false, finishedCount := 0 }

/-! ## Part 4: the graph-executor scheduler (`graphexecutor.cpp`) with the
`aicore_kernel.cpp` worker, as a small-step system

The `Graph`, `Task` and `Handshake` declarations live in headers
(`graph.h`) that are not part of the source tree; the structures below are
modelled from their uses in `graphexecutor.cpp` together with §3 and §4.A
of the specification (`initial_ready` returns the tasks whose `fanin` is
0).  Every step of the relation is one mutex-protected or atomic
transaction of the C code; interleavings of several scheduler threads and
all workers are instances of such step sequences. -/

/-- A task record of the graph-executor variant: the fields of `Task` read
by `execute` (`task_id` is the record's index in the task array, `fanout`
models the first `fanout_count` entries of the fanout array, `fanin` is the
atomic signed counter with its build-time value). -/
structure GTask where
  task_id : Nat := 0
  fanout : List Nat := []
  fanin : Int := 0
  core_type : Nat := 0
deriving DecidableEq, Repr

/-- The task graph: a flat array of `Task` records (modelled as `GTask`). -/
structure Graph where
  tasks : List GTask
deriving DecidableEq, Repr

/-- The handshake cell of the graph-executor variant, modelled from the
field uses in `graphexecutor.cpp` / `kernel.cpp` and §3 of the spec.
`task` is the `uint64_t` task pointer (`none` = 0, `some t` = address of
task `t`). -/
structure Handshake where
  aicpu_ready : Nat := 0
  aicore_done : Nat := 0
  control : Nat := 0
  task : Option Nat := none
  task_status : Nat := 0
  core_type : Nat := 0
deriving DecidableEq, Repr

/-- Fanout list of task `t` (empty for an out-of-range index). -/
def fanoutOf (g : Graph) (t : Nat) : List Nat :=
  ((g.tasks[t]?).map GTask.fanout).getD []

/-- Core type of task `t` (0 for an out-of-range index). -/
def ctypeOf (g : Graph) (t : Nat) : Nat :=
  ((g.tasks[t]?).map GTask.core_type).getD 0

/-- Build-time `fanin` value of task `t`. -/
def fanin0Of (g : Graph) (t : Nat) : Int :=
  ((g.tasks[t]?).map GTask.fanin).getD 0

/-- Modelled from the spec: `Graph::get_initial_ready_tasks` is declared in
the missing header `graph.h`; §4.A specifies `initial_ready()` as the tasks
with `fanin == 0`, in index order. -/
def initialReady (g : Graph) : List Nat :=
  (List.range g.tasks.length).filter fun t => decide (fanin0Of g t = 0)

/-- Occurrences of task id `t` in a queue. -/
def qcount (t : Nat) (q : List Nat) : Nat :=
  q.countP fun x => decide (x = t)

/-- The dynamic state of one execution: the mutable `fanin` counters of the
task records, the two shared ready queues (head = top of the LIFO array),
the handshake array, the `completed_tasks_` counter, and three ghost
event counters (dispatches, collected completions and worker kernel
executions per task id) that record what happened but are never read by
the modelled code. -/
structure SysState where
  fanin : Nat → Int
  qAic : List Nat
  qAiv : List Nat
  cells : List Handshake
  completed : Nat
  dispCount : Nat → Nat
  collectCount : Nat → Nat
  execCount : Nat → Nat

/-- Ghost-counter increment. -/
def bump (f : Nat → Nat) (t : Nat) : Nat → Nat :=
  fun x => if x = t then f x + 1 else f x

/-- Pointwise update of the fanin map. -/
def setI (f : Nat → Int) (t : Nat) (v : Int) : Nat → Int :=
  fun x => if x = t then v else f x

/-- The fanout loop of the completion phase (`graphexecutor.cpp` lines
123-146): for each successor `v` in order, atomically decrement its
`fanin` (`fetch_sub` returns the previous value) and, when the previous
value was 1, push `v` on the ready queue of `v`'s core type (`core_type
== 0` is AIC, anything else goes to the AIV queue). -/
def propStep (g : Graph) (s : SysState) (v : Nat) : SysState :=
  let prev := s.fanin v
  let s1 : SysState := { s with fanin := setI s.fanin v (prev - 1) }
  if prev = 1 then
    (if ctypeOf g v = 0 then { s1 with qAic := v :: s1.qAic }
     else { s1 with qAiv := v :: s1.qAiv })
  else s1

/-- The fanout loop iterates `propStep` over the successors in order. -/
def propagate (g : Graph) (s : SysState) (l : List Nat) : SysState :=
  l.foldl (propStep g) s

/-- Effect of the completion phase on cell `i` holding completed task `t`
(`graphexecutor.cpp` lines 115-153): propagate the fanout, clear the cell's
`task` pointer and increment `completed_tasks_`.  The ghost `collectCount`
records the collection. -/
def collectAt (g : Graph) (s : SysState) (i : Nat) (c : Handshake) (t : Nat) : SysState :=
  let s1 := propagate g s (fanoutOf g t)
  { s1 with
    cells := s1.cells.set i { c with task := none },
    completed := s1.completed + 1,
    collectCount := bump s1.collectCount t }

/-- Effect of dispatching task `t` from the AIC queue to cell `i`
(`graphexecutor.cpp` lines 170-184): pop the stack top, write the `task`
pointer, then write `task_status = 1`. -/
def dispatchAicAt (s : SysState) (i : Nat) (c : Handshake) (t : Nat) (q' : List Nat) : SysState :=
  { s with
    qAic := q',
    cells := s.cells.set i { c with task := some t, task_status := 1 },
    dispCount := bump s.dispCount t }

/-- Effect of dispatching task `t` from the AIV queue to cell `i`
(`graphexecutor.cpp` lines 186-202). -/
def dispatchAivAt (s : SysState) (i : Nat) (c : Handshake) (t : Nat) (q' : List Nat) : SysState :=
  { s with
    qAiv := q',
    cells := s.cells.set i { c with task := some t, task_status := 1 },
    dispCount := bump s.dispCount t }

/-- Effect of one task-executing iteration of the worker loop of
`aicore_kernel.cpp` (lines 125-142) on its own cell: run the kernel of the
task the `task` pointer points to, then write `task_status = 0`.  The ghost
`execCount` records the kernel execution. -/
def execAt (s : SysState) (i : Nat) (c : Handshake) (t : Nat) : SysState :=
  { s with
    cells := s.cells.set i { c with task_status := 0 },
    execCount := bump s.execCount t }

/-- One shared-memory transaction of the combined system: a worker
iteration that finds a task pointer (`aicore_kernel.cpp` polls `control`
and then only the `task` pointer), a completion collection
(`task_status == 0 && task != 0`), or a dispatch to an idle matching cell
(`task_status == 0 && task == 0`, queue of the cell's `core_type`
non-empty). -/
inductive SysStep (g : Graph) : SysState → SysState → Prop where
  | exec (s : SysState) (i : Nat) (c : Handshake) (t : Nat) :
      s.cells[i]? = some c → c.control ≠ 1 → c.task = some t →
      SysStep g s (execAt s i c t)
  | collect (s : SysState) (i : Nat) (c : Handshake) (t : Nat) :
      s.cells[i]? = some c → c.task_status = 0 → c.task = some t →
      SysStep g s (collectAt g s i c t)
  | dispatchAic (s : SysState) (i : Nat) (c : Handshake) (t : Nat) (q' : List Nat) :
      s.cells[i]? = some c → c.task_status = 0 → c.task = none →
      c.core_type = 0 → s.qAic = t :: q' →
      SysStep g s (dispatchAicAt s i c t q')
  | dispatchAiv (s : SysState) (i : Nat) (c : Handshake) (t : Nat) (q' : List Nat) :
      s.cells[i]? = some c → c.task_status = 0 → c.task = none →
      c.core_type = 1 → s.qAiv = t :: q' →
      SysStep g s (dispatchAivAt s i c t q')

/-- The queue initialization by thread 0 (`graphexecutor.cpp` lines 71-84):
push each initially ready task, in order, on the queue of its core type. -/
def initQueues (g : Graph) : List Nat × List Nat :=
  (initialReady g).foldl
    (fun qs t => if ctypeOf g t = 0 then (t :: qs.1, qs.2) else (qs.1, t :: qs.2))
    ([], [])

/-- The state after thread 0's initialization (`graphexecutor.cpp` lines
59-91) on handshake array `cs`: fanin counters at their build-time values,
ready queues seeded from `initial_ready`, `completed_tasks_ = 0`, all ghost
counters zero. -/
def initState (g : Graph) (cs : List Handshake) : SysState :=
  { fanin := fun t => fanin0Of g t,
    qAic := (initQueues g).1,
    qAiv := (initQueues g).2,
    cells := cs,
    completed := 0,
    dispCount := fun _ => 0,
    collectCount := fun _ => 0,
    execCount := fun _ => 0 }

/-- States reachable by the combined scheduler/worker system from the
initialized state. -/
def Reachable (g : Graph) (cs : List Handshake) (s : SysState) : Prop :=
  Relation.ReflTransGen (SysStep g) (initState g cs) s

/-- Handshake cells as the host hands them over: no task, idle status. -/
def InitCells (cs : List Handshake) : Prop :=
  ∀ c ∈ cs, c.task = none ∧ c.task_status = 0

/-- In-degree of task `v`: number of fanout entries pointing at `v` over
the whole graph. -/
def indeg (g : Graph) (v : Nat) : Int :=
  ∑ u ∈ Finset.range g.tasks.length, (qcount v (fanoutOf g u) : Int)

/-- Total fanin decrement applied so far to `v`, given the ghost collection
counters: each collected task decrements each of its fanout entries once. -/
def decSum (g : Graph) (cc : Nat → Nat) (v : Nat) : Int :=
  ∑ u ∈ Finset.range g.tasks.length, (cc u : Int) * (qcount v (fanoutOf g u) : Int)

/-- Number of cells currently holding a pointer to task `t`. -/
def cellCnt (s : SysState) (t : Nat) : Nat :=
  s.cells.countP fun c => decide (c.task = some t)

/-- Well-formedness of a built graph: fanout entries are in range and
duplicate-free, the build-time `fanin` of every task equals its in-degree
(maintained by `add_edge`, §4.A of the spec), and core types are the two
values 0 (Cube) and 1 (Vector). -/
structure WF (g : Graph) : Prop where
  entries : ∀ t v, v ∈ fanoutOf g t → v < g.tasks.length
  nodup : ∀ t, (fanoutOf g t).Nodup
  faninInit : ∀ t, t < g.tasks.length → fanin0Of g t = indeg g t
  kinds : ∀ t, t < g.tasks.length → ctypeOf g t = 0 ∨ ctypeOf g t = 1

/-- Fanin accounting, offset by a list `P` of successors already decremented
inside a running completion phase: every counter equals its build-time
value minus one per collected predecessor, minus the pending decrements. -/
def MidA (g : Graph) (P : List Nat) (s : SysState) : Prop :=
  ∀ v, s.fanin v = fanin0Of g v - decSum g s.collectCount v - (qcount v P : Int)

/-- Fanin accounting between steps: no completion phase is mid-flight. -/
def InvA (g : Graph) (s : SysState) : Prop := MidA g [] s

/-- Occurrence accounting: an in-range task id occurs in the queues, in a
cell or among the collected completions exactly once once its fanin counter
has reached zero, and nowhere before. -/
def InvC (g : Graph) (s : SysState) : Prop :=
  ∀ t, t < g.tasks.length →
    qcount t s.qAic + qcount t s.qAiv + cellCnt s t + s.collectCount t
      = (if s.fanin t = 0 then 1 else 0)

/-- Out-of-range task ids never appear anywhere. -/
def InvD (g : Graph) (s : SysState) : Prop :=
  ∀ t, g.tasks.length ≤ t →
    qcount t s.qAic = 0 ∧ qcount t s.qAiv = 0 ∧ cellCnt s t = 0 ∧
    s.collectCount t = 0 ∧ s.dispCount t = 0

/-- Every dispatch of a task is still pending in a cell or has been
collected. -/
def InvE (s : SysState) : Prop :=
  ∀ t, s.dispCount t = cellCnt s t + s.collectCount t

/-- The AIC queue holds only Cube tasks, the AIV queue only non-Cube
tasks. -/
def InvQ (g : Graph) (s : SysState) : Prop :=
  (∀ t ∈ s.qAic, ctypeOf g t = 0) ∧ (∀ t ∈ s.qAiv, ctypeOf g t ≠ 0)

/-- The full inductive invariant of the combined system. -/
def SysInv (g : Graph) (s : SysState) : Prop :=
  InvA g s ∧ InvC g s ∧ InvD g s ∧ InvE s ∧ InvQ g s

/-! ## Part 5: the doorbell publication order, and concrete instances -/

/-- A single field write to a handshake cell. -/
inductive CellWrite where
  | wTask (v : Option Nat)
  | wStatus (v : Nat)
deriving DecidableEq, Repr

/-- Apply one field write to a cell. -/
def applyWrite (c : Handshake) : CellWrite → Handshake
  | CellWrite.wTask v => { c with task := v }
  | CellWrite.wStatus v => { c with task_status := v }

/-- The write sequence with which a scheduler publishes task `t` to a cell:
first the `task` pointer, then `task_status = 1`.  This is the order of
`graphexecutor.cpp` lines 181-182 and 198-199, and of `aicpu_kernel.cpp`
lines 134-135. -/
def publishWrites (t : Nat) : List CellWrite :=
  [CellWrite.wTask (some t), CellWrite.wStatus 1]

/-- Cell contents after a sequence of field writes. -/
def afterWrites (c : Handshake) (l : List CellWrite) : Handshake :=
  l.foldl applyWrite c

/-- A one-task graph: task 0 is a Cube task with no edges. -/
def g0 : Graph :=
  { tasks := [{ task_id := 0, fanout := [], fanin := 0, core_type := 0 }] }

/-- An idle Cube handshake cell as handed over by the host. -/
def hsIdle : Handshake := {}

/-- One-cell handshake array for `g0`. -/
def cs0 : List Handshake := [hsIdle]

/-- The cell of `cs0` right after task 0 has been dispatched to it. -/
def hsBusy : Handshake := { task := some 0, task_status := 1 }

/-- The cell of `cs0` after the worker has executed task 0 and cleared
`task_status`, while the scheduler has not yet cleared `task`. -/
def hsDone : Handshake := { task := some 0, task_status := 0 }

/-- The state of the combined system on `g0` after the scheduler dispatches
task 0 and the worker loop then runs two polling iterations: because
`aicore_kernel.cpp` polls only the `task` pointer, the second iteration
executes the kernel of task 0 again. -/
def reExecState : SysState :=
  execAt (execAt (dispatchAicAt (initState g0 cs0) 0 hsIdle 0 []) 0 hsBusy 0) 0 hsDone 0

/-- A two-task graph with one edge 0 (Cube) → 1 (Vector). -/
def gEdge : Graph :=
  { tasks := [ { task_id := 0, fanout := [1], fanin := 0, core_type := 0 },
               { task_id := 1, fanout := [], fanin := 1, core_type := 1 } ] }

/-- A single pending PTO task with one outstanding dependency. -/
def pendTasks : List PTOTask := [ { deps_remaining := 1 } ]

/-- A dirty shared-state snapshot before the exit barrier. -/
def sharedW : ExecShared :=
  { readyCountAic := 3, readyCountAiv := 4, completedTasks := 5,
    totalTasks := 6, initDone := true, finishedCount := 0 }

/-! ## Helper lemmas: counting -/

/-- Counting in a cons queue. -/
theorem qcount_cons (t v : Nat) (q : List Nat) :
    qcount t (v :: q) = qcount t q + (if v = t then 1 else 0) := by
  simp [qcount, List.countP_cons]

/-- A present element has positive count. -/
theorem qcount_pos_of_mem {t : Nat} {q : List Nat} (h : t ∈ q) : 0 < qcount t q := by
  refine List.countP_pos_iff.mpr ⟨t, h, by simp⟩

/-- A positive count means membership. -/
theorem mem_of_qcount_pos {t : Nat} {q : List Nat} (h : 0 < qcount t q) : t ∈ q := by
  obtain ⟨a, ha, hp⟩ := List.countP_pos_iff.mp h
  simp only [decide_eq_true_eq] at hp
  exact hp ▸ ha

/-- Count of an absent element. -/
theorem qcount_eq_zero_of_not_mem {t : Nat} {q : List Nat} (h : t ∉ q) : qcount t q = 0 := by
  by_contra hne
  exact h (mem_of_qcount_pos (Nat.pos_of_ne_zero hne))

/-- In a duplicate-free list every count is at most one. -/
theorem qcount_nodup {q : List Nat} (h : q.Nodup) (t : Nat) :
    qcount t q = if t ∈ q then 1 else 0 := by
  induction q with
  | nil => simp [qcount]
  | cons v rest ih =>
      rcases List.nodup_cons.mp h with ⟨hv, hrest⟩
      rw [qcount_cons, ih hrest]
      by_cases hvt : v = t
      · subst hvt
        simp [hv]
      · simp only [List.mem_cons]
        by_cases hm : t ∈ rest <;> simp [hm, hvt, Ne.symm hvt]

/-- Replacing the element at index `i` changes a `countP` by the difference
of the two elements' predicate values. -/
theorem countP_set {α : Type} (p : α → Bool) (l : List α) (i : Nat) (c c' : α)
    (h : l[i]? = some c) :
    (l.set i c').countP p + (if p c then 1 else 0) = l.countP p + (if p c' then 1 else 0) := by
  induction l generalizing i with
  | nil => simp at h
  | cons a tl ih =>
      cases i with
      | zero =>
          simp only [List.getElem?_cons_zero, Option.some.injEq] at h
          subst h
          simp only [List.set_cons_zero, List.countP_cons]
          omega
      | succ j =>
          simp only [List.getElem?_cons_succ] at h
          simp only [List.set_cons_succ, List.countP_cons]
          have := ih j h
          omega

/-- An indexed lookup yields a member. -/
theorem mem_of_getElem? {α : Type} {l : List α} {i : Nat} {a : α} (h : l[i]? = some a) :
    a ∈ l := by
  induction l generalizing i with
  | nil => simp at h
  | cons b tl ih =>
      cases i with
      | zero => simp only [List.getElem?_cons_zero, Option.some.injEq] at h; simp [h]
      | succ j => exact List.mem_cons_of_mem _ (ih (by simpa using h))

/-! ## Helper lemmas: fanin decrement accounting -/

/-- `decSum` of the all-zero ghost counter. -/
theorem decSum_zero (g : Graph) (v : Nat) : decSum g (fun _ => 0) v = 0 := by
  simp [decSum]

/-- Bumping the collection counter of `t` adds `t`'s fanout contribution to
every `decSum`. -/
theorem decSum_bump (g : Graph) (cc : Nat → Nat) (t v : Nat) (ht : t < g.tasks.length) :
    decSum g (bump cc t) v = decSum g cc v + (qcount v (fanoutOf g t) : Int) := by
  unfold decSum
  have hsum : ∀ u ∈ Finset.range g.tasks.length,
      ((bump cc t u : Nat) : Int) * (qcount v (fanoutOf g u) : Int)
        = (cc u : Int) * (qcount v (fanoutOf g u) : Int)
          + (if u = t then (qcount v (fanoutOf g u) : Int) else 0) := by
    intro u _
    by_cases hu : u = t
    · subst hu
      simp [bump]
      ring
    · simp [bump, hu]
  rw [Finset.sum_congr rfl hsum, Finset.sum_add_distrib]
  congr 1
  rw [Finset.sum_ite_eq' (Finset.range g.tasks.length) t
        (fun u => (qcount v (fanoutOf g u) : Int))]
  simp [ht]

/-- When every task is collected at most once and `t` is not collected yet,
the decrements applied to `v` leave room for the whole fanout of `t`. -/
theorem decSum_le (g : Graph) (cc : Nat → Nat) (v t : Nat) (ht : t < g.tasks.length)
    (hcc : ∀ u, cc u ≤ 1) (hct : cc t = 0) :
    decSum g cc v ≤ indeg g v - (qcount v (fanoutOf g t) : Int) := by
  unfold decSum indeg
  have hle : ∀ u ∈ Finset.range g.tasks.length,
      (cc u : Int) * (qcount v (fanoutOf g u) : Int)
        ≤ (if u = t then 0 else (qcount v (fanoutOf g u) : Int)) := by
    intro u _
    by_cases hu : u = t
    · subst hu; simp [hct]
    · simp only [hu, if_false]
      have h1 : (cc u : Int) ≤ 1 := by exact_mod_cast hcc u
      have h0 : (0 : Int) ≤ (qcount v (fanoutOf g u) : Int) := by positivity
      nlinarith
  refine le_trans (Finset.sum_le_sum hle) ?_
  have hsplit : ∀ u ∈ Finset.range g.tasks.length,
      (if u = t then 0 else (qcount v (fanoutOf g u) : Int))
        = (qcount v (fanoutOf g u) : Int)
          - (if u = t then (qcount v (fanoutOf g u) : Int) else 0) := by
    intro u _
    by_cases hu : u = t <;> simp [hu]
  rw [Finset.sum_congr rfl hsplit, Finset.sum_sub_distrib]
  rw [Finset.sum_ite_eq' (Finset.range g.tasks.length) t
        (fun u => (qcount v (fanoutOf g u) : Int))]
  simp [ht]

/-! ## Helper lemmas: the fanout loop -/

/-- A fanout-loop iteration touches only `fanin` and the two queues. -/
theorem propStep_frame (g : Graph) (s : SysState) (v : Nat) :
    (propStep g s v).cells = s.cells ∧ (propStep g s v).completed = s.completed ∧
    (propStep g s v).dispCount = s.dispCount ∧
    (propStep g s v).collectCount = s.collectCount ∧
    (propStep g s v).execCount = s.execCount := by
  simp only [propStep]
  split_ifs <;> simp

/-- Effect of a fanout-loop iteration on the decremented counter. -/
theorem propStep_fanin_self (g : Graph) (s : SysState) (v : Nat) :
    (propStep g s v).fanin v = s.fanin v - 1 := by
  simp only [propStep]
  split_ifs <;> simp [setI]

/-- A fanout-loop iteration leaves other counters alone. -/
theorem propStep_fanin_ne (g : Graph) (s : SysState) {v w : Nat} (h : w ≠ v) :
    (propStep g s v).fanin w = s.fanin w := by
  simp only [propStep]
  split_ifs <;> simp [setI, h]

/-- Effect of a fanout-loop iteration on the processed successor's queue
counts: it is pushed on the queue of its core type exactly when its
previous counter value was 1. -/
theorem propStep_qcount_self (g : Graph) (s : SysState) (v : Nat) :
    qcount v (propStep g s v).qAic
      = qcount v s.qAic + (if s.fanin v = 1 ∧ ctypeOf g v = 0 then 1 else 0) ∧
    qcount v (propStep g s v).qAiv
      = qcount v s.qAiv + (if s.fanin v = 1 ∧ ctypeOf g v ≠ 0 then 1 else 0) := by
  simp only [propStep]
  by_cases h1 : s.fanin v = 1
  · by_cases h2 : ctypeOf g v = 0 <;> simp [h1, h2, qcount_cons]
  · simp [h1]

/-- A fanout-loop iteration does not change the queue counts of any other
task id. -/
theorem propStep_qcount_ne (g : Graph) (s : SysState) {v w : Nat} (h : v ≠ w) :
    qcount w (propStep g s v).qAic = qcount w s.qAic ∧
    qcount w (propStep g s v).qAiv = qcount w s.qAiv := by
  simp only [propStep]
  split_ifs <;> simp [qcount_cons, h]

/-- Queue membership after a fanout-loop iteration comes from the old queue
or is the pushed successor, routed by its core type. -/
theorem propStep_mem (g : Graph) (s : SysState) (v x : Nat) :
    (x ∈ (propStep g s v).qAic → x ∈ s.qAic ∨ (x = v ∧ ctypeOf g v = 0)) ∧
    (x ∈ (propStep g s v).qAiv → x ∈ s.qAiv ∨ (x = v ∧ ctypeOf g v ≠ 0)) := by
  simp only [propStep]
  split_ifs with h1 h2
  · simp only [List.mem_cons]
    constructor
    · rintro (rfl | hx)
      · exact Or.inr ⟨rfl, h2⟩
      · exact Or.inl hx
    · exact fun hx => Or.inl hx
  · simp only [List.mem_cons]
    constructor
    · exact fun hx => Or.inl hx
    · rintro (rfl | hx)
      · exact Or.inr ⟨rfl, h2⟩
      · exact Or.inl hx
  · exact ⟨fun hx => Or.inl hx, fun hx => Or.inl hx⟩

/-- The whole fanout loop touches only `fanin` and the two queues. -/
theorem propagate_frame (g : Graph) (l : List Nat) : ∀ s : SysState,
    (propagate g s l).cells = s.cells ∧ (propagate g s l).completed = s.completed ∧
    (propagate g s l).dispCount = s.dispCount ∧
    (propagate g s l).collectCount = s.collectCount ∧
    (propagate g s l).execCount = s.execCount := by
  induction l with
  | nil => intro s; simp [propagate]
  | cons v rest ih =>
      intro s
      have h1 := propStep_frame g s v
      have h2 := ih (propStep g s v)
      simp only [propagate, List.foldl_cons] at h2 ⊢
      exact ⟨h2.1.trans h1.1, (h2.2.1).trans h1.2.1, (h2.2.2.1).trans h1.2.2.1,
        (h2.2.2.2.1).trans h1.2.2.2.1, (h2.2.2.2.2).trans h1.2.2.2.2⟩

/-- The fanout loop does not touch tasks outside the processed list. -/
theorem propagate_not_mem (g : Graph) (l : List Nat) : ∀ (s : SysState) (v : Nat), v ∉ l →
    (propagate g s l).fanin v = s.fanin v ∧
    qcount v (propagate g s l).qAic = qcount v s.qAic ∧
    qcount v (propagate g s l).qAiv = qcount v s.qAiv := by
  induction l with
  | nil => intro s v _; simp [propagate]
  | cons w rest ih =>
      intro s v hv
      have hvw : v ≠ w := fun h => hv (h ▸ List.mem_cons_self w rest)
      have hrest : v ∉ rest := fun h => hv (List.mem_cons_of_mem _ h)
      have h2 := ih (propStep g s w) v hrest
      have hq := propStep_qcount_ne g s (Ne.symm hvw)
      simp only [propagate, List.foldl_cons] at h2 ⊢
      exact ⟨h2.1.trans (propStep_fanin_ne g s hvw),
        h2.2.1.trans hq.1, h2.2.2.trans hq.2⟩

/-- Fanout-loop effect on a successor occurring once in the list: its
counter is decremented by exactly one, and it is pushed on the ready queue
of its core type exactly when the counter's previous value was 1. -/
theorem propagate_effect (g : Graph) (l : List Nat) (hnd : l.Nodup) (v : Nat) (hv : v ∈ l) :
    ∀ s : SysState,
    (propagate g s l).fanin v = s.fanin v - 1 ∧
    qcount v (propagate g s l).qAic
      = qcount v s.qAic + (if s.fanin v = 1 ∧ ctypeOf g v = 0 then 1 else 0) ∧
    qcount v (propagate g s l).qAiv
      = qcount v s.qAiv + (if s.fanin v = 1 ∧ ctypeOf g v ≠ 0 then 1 else 0) := by
  induction l with
  | nil => cases hv
  | cons w rest ih =>
      intro s
      rcases List.nodup_cons.mp hnd with ⟨hw, hrest⟩
      by_cases hvw : v = w
      · subst hvw
        have hnm := propagate_not_mem g rest (propStep g s v) v hw
        have hself := propStep_qcount_self g s v
        simp only [propagate, List.foldl_cons] at hnm ⊢
        refine ⟨hnm.1.trans (propStep_fanin_self g s v), ?_, ?_⟩
        · rw [hnm.2.1, hself.1]
        · rw [hnm.2.2, hself.2]
      · have hvrest : v ∈ rest := by
          rcases List.mem_cons.mp hv with h | h
          · exact absurd h hvw
          · exact h
        have h2 := ih hrest hvrest (propStep g s w)
        have hq := propStep_qcount_ne g s (Ne.symm hvw : w ≠ v)
        have hf := propStep_fanin_ne g s (hvw : v ≠ w)
        simp only [propagate, List.foldl_cons] at h2 ⊢
        refine ⟨?_, ?_, ?_⟩
        · rw [h2.1, hf]
        · rw [h2.2.1, hq.1, hf]
        · rw [h2.2.2, hq.2, hf]

/-- Counting over an append. -/
theorem qcount_append (t : Nat) (l1 l2 : List Nat) :
    qcount t (l1 ++ l2) = qcount t l1 + qcount t l2 := by
  simp [qcount, List.countP_append]

/-- Every collection counter is at most one in a state satisfying the
occurrence accounting. -/
theorem collectCount_le_one {g : Graph} {s : SysState} (hC : InvC g s) (hD : InvD g s)
    (u : Nat) : s.collectCount u ≤ 1 := by
  by_cases hu : u < g.tasks.length
  · have h := hC u hu
    by_cases hz : s.fanin u = 0
    · rw [if_pos hz] at h; omega
    · rw [if_neg hz] at h; omega
  · have h := (hD u (le_of_not_lt hu)).2.2.2.1
    omega

/-- Invariant preservation through the fanout loop of a completion of task
`t`: processing the remaining successors `l` (with the prefix `pre` already
processed) keeps the occurrence accounting, queue typing and range
invariants, and ends with the fanin accounting offset by the full fanout
of `t`. -/
theorem propagate_midinv (g : Graph) (hw : WF g) (t : Nat) (ht : t < g.tasks.length) :
    ∀ (l pre : List Nat) (s : SysState),
      fanoutOf g t = pre ++ l →
      MidA g pre s → InvC g s → InvD g s → InvQ g s → s.collectCount t = 0 →
      MidA g (fanoutOf g t) (propagate g s l) ∧ InvC g (propagate g s l) ∧
      InvD g (propagate g s l) ∧ InvQ g (propagate g s l) ∧
      (propagate g s l).collectCount t = 0 := by
  intro l
  induction l with
  | nil =>
      intro pre s hsplit hA hC hD hQ hcc
      rw [List.append_nil] at hsplit
      simp only [propagate, List.foldl_nil]
      exact ⟨hsplit ▸ hA, hC, hD, hQ, hcc⟩
  | cons v rest ih =>
      intro pre s hsplit hA hC hD hQ hcc
      have hnd : (fanoutOf g t).Nodup := hw.nodup t
      have hnd' : (pre ++ v :: rest).Nodup := hsplit ▸ hnd
      have hpre_parts := List.nodup_append.mp hnd'
      have hvpre : v ∉ pre := fun hv => hpre_parts.2.2 hv (List.mem_cons_self v rest)
      have hvmem : v ∈ fanoutOf g t := by
        rw [hsplit]; exact List.mem_append_right _ (List.mem_cons_self v rest)
      have hvlt : v < g.tasks.length := hw.entries t v hvmem
      have hccle : ∀ u, s.collectCount u ≤ 1 := collectCount_le_one hC hD
      have hprev_eq : s.fanin v = fanin0Of g v - decSum g s.collectCount v := by
        have h := hA v
        rw [qcount_eq_zero_of_not_mem hvpre] at h
        simpa using h
      have hqc1 : 1 ≤ qcount v (fanoutOf g t) := qcount_pos_of_mem hvmem
      have hprev1 : 1 ≤ s.fanin v := by
        have hdecle := decSum_le g s.collectCount v t ht hccle hcc
        have hindeg := hw.faninInit v hvlt
        have hcast : (1 : Int) ≤ (qcount v (fanoutOf g t) : Int) := by exact_mod_cast hqc1
        rw [hprev_eq, hindeg]
        omega
      have hframe := propStep_frame g s v
      have hcellf : ∀ w, cellCnt (propStep g s v) w = cellCnt s w := by
        intro w; unfold cellCnt; rw [hframe.1]
      have hccf : ∀ w, (propStep g s v).collectCount w = s.collectCount w := by
        intro w; rw [hframe.2.2.2.1]
      have hdispf : ∀ w, (propStep g s v).dispCount w = s.dispCount w := by
        intro w; rw [hframe.2.2.1]
      have hA' : MidA g (pre ++ [v]) (propStep g s v) := by
        intro w
        have hdec : decSum g (propStep g s v).collectCount w = decSum g s.collectCount w := by
          rw [hframe.2.2.2.1]
        by_cases hwv : w = v
        · subst hwv
          rw [propStep_fanin_self, hdec, qcount_append,
              qcount_eq_zero_of_not_mem hvpre]
          have hone : qcount w [w] = 1 := by simp [qcount]
          rw [hone]
          have h := hA w
          rw [qcount_eq_zero_of_not_mem hvpre] at h
          push_cast at h ⊢
          omega
        · rw [propStep_fanin_ne g s hwv, hdec, qcount_append]
          have hvw' : v ≠ w := fun h => hwv h.symm
          have hzero : qcount w [v] = 0 := by simp [qcount, hvw']
          rw [hzero]
          have h := hA w
          push_cast at h ⊢
          omega
      have hC' : InvC g (propStep g s v) := by
        intro w hwlt
        have hCw := hC w hwlt
        by_cases hwv : w = v
        · subst hwv
          have hqs := propStep_qcount_self g s w
          rw [hqs.1, hqs.2, hcellf, hccf, propStep_fanin_self]
          by_cases hp1 : s.fanin w = 1
          · rw [if_neg (by omega : ¬ s.fanin w = 0)] at hCw
            rw [if_pos (by omega : s.fanin w - 1 = 0)]
            by_cases hct : ctypeOf g w = 0
            · rw [if_pos ⟨hp1, hct⟩,
                if_neg (show ¬ (s.fanin w = 1 ∧ ctypeOf g w ≠ 0) from fun h => h.2 hct)]
              omega
            · rw [if_neg (show ¬ (s.fanin w = 1 ∧ ctypeOf g w = 0) from fun h => hct h.2),
                if_pos ⟨hp1, hct⟩]
              omega
          · rw [if_neg (by omega : ¬ s.fanin w - 1 = 0)]
            have hz : ¬ s.fanin w = 0 := by omega
            rw [if_neg hz] at hCw
            rw [if_neg (show ¬ (s.fanin w = 1 ∧ ctypeOf g w = 0) from fun h => hp1 h.1),
              if_neg (show ¬ (s.fanin w = 1 ∧ ctypeOf g w ≠ 0) from fun h => hp1 h.1)]
            omega
        · have hq := propStep_qcount_ne g s (fun h => hwv h.symm)
          rw [hq.1, hq.2, hcellf, hccf, propStep_fanin_ne g s hwv]
          exact hCw
      have hD' : InvD g (propStep g s v) := by
        intro w hwn
        have hwv : w ≠ v := fun h => absurd hvlt (by omega)
        have hq := propStep_qcount_ne g s (fun h => hwv h.symm)
        have h := hD w hwn
        exact ⟨hq.1 ▸ h.1, hq.2 ▸ h.2.1, (hcellf w) ▸ h.2.2.1,
          (hccf w) ▸ h.2.2.2.1, (hdispf w) ▸ h.2.2.2.2⟩
      have hQ' : InvQ g (propStep g s v) := by
        constructor
        · intro x hx
          rcases (propStep_mem g s v x).1 hx with h | ⟨rfl, hc⟩
          · exact hQ.1 x h
          · exact hc
        · intro x hx
          rcases (propStep_mem g s v x).2 hx with h | ⟨rfl, hc⟩
          · exact hQ.2 x h
          · exact hc
      have hcc' : (propStep g s v).collectCount t = 0 := (hccf t) ▸ hcc
      have hsplit' : fanoutOf g t = (pre ++ [v]) ++ rest := by
        rw [hsplit]; simp
      have hres := ih (pre ++ [v]) (propStep g s v) hsplit' hA' hC' hD' hQ' hcc'
      simpa only [propagate, List.foldl_cons] using hres

/-- `countP_set` specialised to the cell predicate of `cellCnt`. -/
theorem countP_task_set (cells : List Handshake) (i : Nat) (c c' : Handshake)
    (h : cells[i]? = some c) (w : Nat) :
    (cells.set i c').countP (fun x => decide (x.task = some w))
        + (if c.task = some w then 1 else 0)
      = cells.countP (fun x => decide (x.task = some w))
        + (if c'.task = some w then 1 else 0) := by
  have hh := countP_set (fun x => decide (x.task = some w)) cells i c c' h
  simpa using hh

/-- A cell that holds task `t` makes `cellCnt` positive. -/
theorem cellCnt_pos {s : SysState} {i : Nat} {c : Handshake} {t : Nat}
    (h : s.cells[i]? = some c) (ht : c.task = some t) : 1 ≤ cellCnt s t := by
  refine List.countP_pos_iff.mpr ⟨c, mem_of_getElem? h, by simp [ht]⟩

/-- One transaction of the combined system preserves the invariant. -/
theorem sysStep_inv (g : Graph) (hw : WF g) (s s' : SysState)
    (hi : SysInv g s) (hs : SysStep g s s') : SysInv g s' := by
  obtain ⟨hA, hC, hD, hE, hQ⟩ := hi
  cases hs with
  | exec i c t hcell hctrl htask =>
      have hcc : ∀ w, cellCnt (execAt s i c t) w = cellCnt s w := by
        intro w
        have hh := countP_task_set s.cells i c { c with task_status := 0 } hcell w
        rw [show ({ c with task_status := 0 } : Handshake).task = c.task from rfl] at hh
        simp only [execAt, cellCnt]
        omega
      refine ⟨?_, ?_, ?_, ?_, ?_⟩
      · intro v; exact hA v
      · intro w hwlt
        rw [show (execAt s i c t).qAic = s.qAic from rfl,
          show (execAt s i c t).qAiv = s.qAiv from rfl, hcc w]
        exact hC w hwlt
      · intro w hwn
        rw [show (execAt s i c t).qAic = s.qAic from rfl,
          show (execAt s i c t).qAiv = s.qAiv from rfl, hcc w]
        exact hD w hwn
      · intro w
        rw [show (execAt s i c t).dispCount = s.dispCount from rfl, hcc w]
        exact hE w
      · exact hQ
  | collect i c t hcell hstat htask =>
      -- basic facts about the collected task
      have hcpos : 1 ≤ cellCnt s t := cellCnt_pos hcell htask
      have htn : t < g.tasks.length := by
        by_contra h
        have := (hD t (le_of_not_lt h)).2.2.1
        omega
      have hCt := hC t htn
      have hfz : s.fanin t = 0 ∧ qcount t s.qAic = 0 ∧ qcount t s.qAiv = 0 ∧
          cellCnt s t = 1 ∧ s.collectCount t = 0 := by
        by_cases hz : s.fanin t = 0
        · rw [if_pos hz] at hCt
          exact ⟨hz, by omega, by omega, by omega, by omega⟩
        · rw [if_neg hz] at hCt
          omega
      have hccle : ∀ u, s.collectCount u ≤ 1 := collectCount_le_one hC hD
      have hqft : qcount t (fanoutOf g t) = 0 := by
        have hdecle := decSum_le g s.collectCount t t htn hccle hfz.2.2.2.2
        have hAt := hA t
        rw [show qcount t ([] : List Nat) = 0 from rfl] at hAt
        have hindeg := hw.faninInit t htn
        have h0 := hfz.1
        have hcast : (0 : Int) ≤ (qcount t (fanoutOf g t) : Int) := by positivity
        omega
      -- run the fanout loop
      have hsplit : fanoutOf g t = [] ++ fanoutOf g t := by simp
      have hmid := propagate_midinv g hw t htn (fanoutOf g t) [] s hsplit
        (by intro v; simpa using hA v) hC hD hQ hfz.2.2.2.2
      obtain ⟨hA1, hC1, hD1, hQ1, hcc1⟩ := hmid
      have hframe := propagate_frame g (fanoutOf g t) s
      have hcells1 : (propagate g s (fanoutOf g t)).cells = s.cells := hframe.1
      have hdisp1 : (propagate g s (fanoutOf g t)).dispCount = s.dispCount := hframe.2.2.1
      have hcoll1 : (propagate g s (fanoutOf g t)).collectCount = s.collectCount :=
        hframe.2.2.2.1
      have hcellCnt1 : ∀ w, cellCnt (propagate g s (fanoutOf g t)) w = cellCnt s w := by
        intro w; unfold cellCnt; rw [hcells1]
      -- the fanin of t is untouched by its own fanout loop
      have hfant : (propagate g s (fanoutOf g t)).fanin t = 0 := by
        have hnm := propagate_not_mem g (fanoutOf g t) s t
          (fun hm => by have := qcount_pos_of_mem hm; omega)
        rw [hnm.1]; exact hfz.1
      -- cell-count change of the final cell write
      have hset : ∀ w,
          cellCnt (collectAt g s i c t) w + (if c.task = some w then 1 else 0)
            = cellCnt (propagate g s (fanoutOf g t)) w
              + (if (none : Option Nat) = some w then 1 else 0) := by
        intro w
        have hcell1 : (propagate g s (fanoutOf g t)).cells[i]? = some c := by
          rw [hcells1]; exact hcell
        have hh := countP_task_set (propagate g s (fanoutOf g t)).cells i c
          { c with task := none } hcell1 w
        simpa [collectAt, cellCnt] using hh
      have hcell_t : cellCnt (collectAt g s i c t) t + 1
          = cellCnt (propagate g s (fanoutOf g t)) t := by
        have hh := hset t
        rw [htask] at hh
        simpa using hh
      have hcell_ne : ∀ w, w ≠ t → cellCnt (collectAt g s i c t) w
          = cellCnt (propagate g s (fanoutOf g t)) w := by
        intro w hwne
        have hh := hset w
        rw [htask] at hh
        have h1 : ¬ (some t = some w) := fun h => hwne (by injection h; omega)
        rw [if_neg h1] at hh
        simpa using hh
      -- remaining projections of the collect step
      have hq1 : (collectAt g s i c t).qAic = (propagate g s (fanoutOf g t)).qAic := rfl
      have hq2 : (collectAt g s i c t).qAiv = (propagate g s (fanoutOf g t)).qAiv := rfl
      have hfan' : (collectAt g s i c t).fanin = (propagate g s (fanoutOf g t)).fanin := rfl
      have hcol' : (collectAt g s i c t).collectCount
          = bump (propagate g s (fanoutOf g t)).collectCount t := rfl
      have hdisp' : (collectAt g s i c t).dispCount = s.dispCount := by
        rw [show (collectAt g s i c t).dispCount
          = (propagate g s (fanoutOf g t)).dispCount from rfl, hdisp1]
      refine ⟨?_, ?_, ?_, ?_, ?_⟩
      · -- InvA
        intro v
        have hAv := hA1 v
        rw [hcoll1] at hAv
        rw [hfan', hcol', hcoll1, decSum_bump g s.collectCount t v htn,
          show qcount v ([] : List Nat) = 0 from by simp [qcount]]
        push_cast at hAv ⊢
        omega
      · -- InvC
        intro w hwlt
        have hC1w := hC1 w hwlt
        rw [hq1, hq2, hfan', hcol']
        by_cases hwt : w = t
        · subst hwt
          rw [show bump (propagate g s (fanoutOf g w)).collectCount w w
            = (propagate g s (fanoutOf g w)).collectCount w + 1 from by simp [bump]]
          rw [hcoll1] at hC1w ⊢
          rw [if_pos hfant] at hC1w ⊢
          omega
        · rw [show bump (propagate g s (fanoutOf g t)).collectCount t w
            = (propagate g s (fanoutOf g t)).collectCount w from by simp [bump, hwt]]
          rw [hcell_ne w hwt]
          exact hC1w
      · -- InvD
        intro w hwn
        have hwt : w ≠ t := fun h => absurd htn (by omega)
        have hD1w := hD1 w hwn
        rw [hq1, hq2, hcell_ne w hwt, hcol',
          show bump (propagate g s (fanoutOf g t)).collectCount t w
            = (propagate g s (fanoutOf g t)).collectCount w from by simp [bump, hwt],
          show (collectAt g s i c t).dispCount w
            = (propagate g s (fanoutOf g t)).dispCount w from rfl]
        exact hD1w
      · -- InvE
        intro w
        have hEw := hE w
        rw [hdisp', hcol']
        by_cases hwt : w = t
        · subst hwt
          rw [show bump (propagate g s (fanoutOf g w)).collectCount w w
            = (propagate g s (fanoutOf g w)).collectCount w + 1 from by simp [bump]]
          rw [hcoll1]
          have := hcell_t
          have hc1t := hcellCnt1 w
          omega
        · rw [show bump (propagate g s (fanoutOf g t)).collectCount t w
            = (propagate g s (fanoutOf g t)).collectCount w from by simp [bump, hwt]]
          rw [hcoll1, hcell_ne w hwt, hcellCnt1 w]
          exact hEw
      · -- InvQ
        rw [show (collectAt g s i c t).qAic = (propagate g s (fanoutOf g t)).qAic from rfl] at *
        exact ⟨fun x hx => hQ1.1 x hx, fun x hx => hQ1.2 x hx⟩
  | dispatchAic i c t q' hcell hstat htask hkind hq =>
      have htq : t ∈ s.qAic := by rw [hq]; exact List.mem_cons_self t q'
      have htn : t < g.tasks.length := by
        by_contra h
        have := (hD t (le_of_not_lt h)).1
        have := qcount_pos_of_mem htq
        omega
      have hset : ∀ w,
          cellCnt (dispatchAicAt s i c t q') w + (if c.task = some w then 1 else 0)
            = cellCnt s w + (if (some t : Option Nat) = some w then 1 else 0) := by
        intro w
        have hh := countP_task_set s.cells i c
          { c with task := some t, task_status := 1 } hcell w
        simpa [dispatchAicAt, cellCnt] using hh
      have hcell_t : cellCnt (dispatchAicAt s i c t q') t = cellCnt s t + 1 := by
        have hh := hset t
        rw [htask] at hh
        simpa using hh
      have hcell_ne : ∀ w, w ≠ t → cellCnt (dispatchAicAt s i c t q') w = cellCnt s w := by
        intro w hwne
        have hh := hset w
        rw [htask] at hh
        have h1 : ¬ ((some t : Option Nat) = some w) := fun h => hwne (by injection h; omega)
        rw [if_neg h1] at hh
        simpa using hh
      have hqc : ∀ w, qcount w s.qAic = qcount w q' + (if t = w then 1 else 0) := by
        intro w; rw [hq, qcount_cons]
      refine ⟨?_, ?_, ?_, ?_, ?_⟩
      · intro v; exact hA v
      · intro w hwlt
        have hCw := hC w hwlt
        rw [show (dispatchAicAt s i c t q').qAic = q' from rfl,
          show (dispatchAicAt s i c t q').qAiv = s.qAiv from rfl,
          show (dispatchAicAt s i c t q').collectCount = s.collectCount from rfl,
          show (dispatchAicAt s i c t q').fanin = s.fanin from rfl]
        by_cases hwt : w = t
        · subst hwt
          rw [hcell_t]
          have := hqc w
          rw [if_pos rfl] at this
          omega
        · rw [hcell_ne w hwt]
          have := hqc w
          rw [if_neg (fun h => hwt (h.symm))] at this
          omega
      · intro w hwn
        have hwt : w ≠ t := fun h => absurd htn (by omega)
        have hDw := hD w hwn
        have := hqc w
        rw [if_neg (fun h => hwt h.symm)] at this
        refine ⟨?_, hDw.2.1, (hcell_ne w hwt).trans hDw.2.2.1, hDw.2.2.2.1, ?_⟩
        · rw [show (dispatchAicAt s i c t q').qAic = q' from rfl]
          omega
        rw [show (dispatchAicAt s i c t q').dispCount = bump s.dispCount t from rfl,
          show bump s.dispCount t w = s.dispCount w from by simp [bump, hwt]]
        exact hDw.2.2.2.2
      · intro w
        have hEw := hE w
        rw [show (dispatchAicAt s i c t q').dispCount = bump s.dispCount t from rfl,
          show (dispatchAicAt s i c t q').collectCount = s.collectCount from rfl]
        by_cases hwt : w = t
        · subst hwt
          rw [show bump s.dispCount w w = s.dispCount w + 1 from by simp [bump], hcell_t]
          omega
        · rw [show bump s.dispCount t w = s.dispCount w from by simp [bump, hwt],
            hcell_ne w hwt]
          exact hEw
      · constructor
        · intro x hx
          exact hQ.1 x (by rw [hq]; exact List.mem_cons_of_mem _ hx)
        · intro x hx
          exact hQ.2 x hx
  | dispatchAiv i c t q' hcell hstat htask hkind hq =>
      have htq : t ∈ s.qAiv := by rw [hq]; exact List.mem_cons_self t q'
      have htn : t < g.tasks.length := by
        by_contra h
        have := (hD t (le_of_not_lt h)).2.1
        have := qcount_pos_of_mem htq
        omega
      have hset : ∀ w,
          cellCnt (dispatchAivAt s i c t q') w + (if c.task = some w then 1 else 0)
            = cellCnt s w + (if (some t : Option Nat) = some w then 1 else 0) := by
        intro w
        have hh := countP_task_set s.cells i c
          { c with task := some t, task_status := 1 } hcell w
        simpa [dispatchAivAt, cellCnt] using hh
      have hcell_t : cellCnt (dispatchAivAt s i c t q') t = cellCnt s t + 1 := by
        have hh := hset t
        rw [htask] at hh
        simpa using hh
      have hcell_ne : ∀ w, w ≠ t → cellCnt (dispatchAivAt s i c t q') w = cellCnt s w := by
        intro w hwne
        have hh := hset w
        rw [htask] at hh
        have h1 : ¬ ((some t : Option Nat) = some w) := fun h => hwne (by injection h; omega)
        rw [if_neg h1] at hh
        simpa using hh
      have hqc : ∀ w, qcount w s.qAiv = qcount w q' + (if t = w then 1 else 0) := by
        intro w; rw [hq, qcount_cons]
      refine ⟨?_, ?_, ?_, ?_, ?_⟩
      · intro v; exact hA v
      · intro w hwlt
        have hCw := hC w hwlt
        rw [show (dispatchAivAt s i c t q').qAiv = q' from rfl,
          show (dispatchAivAt s i c t q').qAic = s.qAic from rfl,
          show (dispatchAivAt s i c t q').collectCount = s.collectCount from rfl,
          show (dispatchAivAt s i c t q').fanin = s.fanin from rfl]
        by_cases hwt : w = t
        · subst hwt
          rw [hcell_t]
          have := hqc w
          rw [if_pos rfl] at this
          omega
        · rw [hcell_ne w hwt]
          have := hqc w
          rw [if_neg (fun h => hwt (h.symm))] at this
          omega
      · intro w hwn
        have hwt : w ≠ t := fun h => absurd htn (by omega)
        have hDw := hD w hwn
        have := hqc w
        rw [if_neg (fun h => hwt h.symm)] at this
        refine ⟨hDw.1, ?_, (hcell_ne w hwt).trans hDw.2.2.1, hDw.2.2.2.1, ?_⟩
        · rw [show (dispatchAivAt s i c t q').qAiv = q' from rfl]
          omega
        rw [show (dispatchAivAt s i c t q').dispCount = bump s.dispCount t from rfl,
          show bump s.dispCount t w = s.dispCount w from by simp [bump, hwt]]
        exact hDw.2.2.2.2
      · intro w
        have hEw := hE w
        rw [show (dispatchAivAt s i c t q').dispCount = bump s.dispCount t from rfl,
          show (dispatchAivAt s i c t q').collectCount = s.collectCount from rfl]
        by_cases hwt : w = t
        · subst hwt
          rw [show bump s.dispCount w w = s.dispCount w + 1 from by simp [bump], hcell_t]
          omega
        · rw [show bump s.dispCount t w = s.dispCount w from by simp [bump, hwt],
            hcell_ne w hwt]
          exact hEw
      · constructor
        · intro x hx
          exact hQ.1 x hx
        · intro x hx
          exact hQ.2 x (by rw [hq]; exact List.mem_cons_of_mem _ hx)

/-- Counting through the queue-seeding fold of thread 0's initialization. -/
theorem foldl_partition_count (g : Graph) (l : List Nat) : ∀ (qa qv : List Nat) (t : Nat),
    qcount t (l.foldl
      (fun qs v => if ctypeOf g v = 0 then (v :: qs.1, qs.2) else (qs.1, v :: qs.2))
      (qa, qv)).1
    + qcount t (l.foldl
      (fun qs v => if ctypeOf g v = 0 then (v :: qs.1, qs.2) else (qs.1, v :: qs.2))
      (qa, qv)).2
    = qcount t qa + qcount t qv + qcount t l := by
  induction l with
  | nil => intro qa qv t; simp [qcount]
  | cons v rest ih =>
      intro qa qv t
      by_cases hc : ctypeOf g v = 0
      · simp only [List.foldl_cons, hc, if_pos]
        have := ih (v :: qa) qv t
        rw [this, qcount_cons, qcount_cons]
        omega
      · simp only [List.foldl_cons, hc, if_false, if_neg hc]
        have := ih qa (v :: qv) t
        rw [this, qcount_cons, qcount_cons]
        omega

/-- Membership through the queue-seeding fold. -/
theorem foldl_partition_mem (g : Graph) (l : List Nat) : ∀ (qa qv : List Nat) (x : Nat),
    ((x ∈ (l.foldl
        (fun qs v => if ctypeOf g v = 0 then (v :: qs.1, qs.2) else (qs.1, v :: qs.2))
        (qa, qv)).1 → x ∈ qa ∨ (x ∈ l ∧ ctypeOf g x = 0)) ∧
     (x ∈ (l.foldl
        (fun qs v => if ctypeOf g v = 0 then (v :: qs.1, qs.2) else (qs.1, v :: qs.2))
        (qa, qv)).2 → x ∈ qv ∨ (x ∈ l ∧ ctypeOf g x ≠ 0))) := by
  induction l with
  | nil => intro qa qv x; constructor <;> (intro h; exact Or.inl (by simpa using h))
  | cons v rest ih =>
      intro qa qv x
      by_cases hc : ctypeOf g v = 0
      · simp only [List.foldl_cons, hc, if_pos]
        constructor
        · intro h
          rcases (ih (v :: qa) qv x).1 h with hh | ⟨hl, hx⟩
          · rcases List.mem_cons.mp hh with rfl | hh
            · exact Or.inr ⟨List.mem_cons_self _ _, hc⟩
            · exact Or.inl hh
          · exact Or.inr ⟨List.mem_cons_of_mem _ hl, hx⟩
        · intro h
          rcases (ih (v :: qa) qv x).2 h with hh | ⟨hl, hx⟩
          · exact Or.inl hh
          · exact Or.inr ⟨List.mem_cons_of_mem _ hl, hx⟩
      · simp only [List.foldl_cons, hc, if_false, if_neg hc]
        constructor
        · intro h
          rcases (ih qa (v :: qv) x).1 h with hh | ⟨hl, hx⟩
          · exact Or.inl hh
          · exact Or.inr ⟨List.mem_cons_of_mem _ hl, hx⟩
        · intro h
          rcases (ih qa (v :: qv) x).2 h with hh | ⟨hl, hx⟩
          · rcases List.mem_cons.mp hh with rfl | hh
            · exact Or.inr ⟨List.mem_cons_self _ _, hc⟩
            · exact Or.inl hh
          · exact Or.inr ⟨List.mem_cons_of_mem _ hl, hx⟩

/-- Each task id occurs in `initial_ready` exactly when its build-time
fanin is zero (and it is in range). -/
theorem qcount_initialReady (g : Graph) (t : Nat) :
    qcount t (initialReady g)
      = if t < g.tasks.length ∧ fanin0Of g t = 0 then 1 else 0 := by
  have hnd : (initialReady g).Nodup := (List.nodup_range _).filter _
  rw [qcount_nodup hnd t]
  have hmem : t ∈ initialReady g ↔ (t < g.tasks.length ∧ fanin0Of g t = 0) := by
    unfold initialReady
    rw [List.mem_filter, List.mem_range]
    simp
  by_cases h : t < g.tasks.length ∧ fanin0Of g t = 0
  · rw [if_pos (hmem.mpr h), if_pos h]
  · rw [if_neg (fun hm => h (hmem.mp hm)), if_neg h]

/-- The invariant holds in the initialized state. -/
theorem init_inv (g : Graph) (cs : List Handshake) (hcs : InitCells cs) :
    SysInv g (initState g cs) := by
  have hcell0 : ∀ t, cellCnt (initState g cs) t = 0 := by
    intro t
    refine List.countP_eq_zero.mpr ?_
    intro c hc
    have := (hcs c hc).1
    simp [this]
  have hqsum : ∀ t, qcount t (initState g cs).qAic + qcount t (initState g cs).qAiv
      = qcount t (initialReady g) := by
    intro t
    have hh := foldl_partition_count g (initialReady g) [] [] t
    have hz : qcount t ([] : List Nat) = 0 := by simp [qcount]
    rw [hz] at hh
    simpa [initState, initQueues] using hh
  refine ⟨?_, ?_, ?_, ?_, ?_⟩
  · intro v
    show (initState g cs).fanin v
      = fanin0Of g v - decSum g (initState g cs).collectCount v - (qcount v [] : Int)
    rw [show (initState g cs).collectCount = (fun _ => 0) from rfl, decSum_zero,
      show (initState g cs).fanin v = fanin0Of g v from rfl,
      show qcount v ([] : List Nat) = 0 from by simp [qcount]]
    simp
  · intro w hwlt
    have h1 := hqsum w
    have h2 := qcount_initialReady g w
    have h3 := hcell0 w
    rw [show (initState g cs).collectCount w = 0 from rfl,
      show (initState g cs).fanin w = fanin0Of g w from rfl]
    by_cases hz : fanin0Of g w = 0
    · rw [if_pos hz]
      rw [if_pos ⟨hwlt, hz⟩] at h2
      omega
    · rw [if_neg hz]
      rw [if_neg (fun hh => hz hh.2)] at h2
      omega
  · intro w hwn
    have h1 := hqsum w
    have h2 := qcount_initialReady g w
    rw [if_neg (fun hh => absurd hh.1 (by omega))] at h2
    exact ⟨by omega, by omega, hcell0 w, rfl, rfl⟩
  · intro w
    rw [show (initState g cs).dispCount w = 0 from rfl,
      show (initState g cs).collectCount w = 0 from rfl, hcell0 w]
  · constructor
    · intro x hx
      have hm := (foldl_partition_mem g (initialReady g) [] [] x).1 hx
      rcases hm with hh | ⟨_, hc⟩
      · simp at hh
      · exact hc
    · intro x hx
      have hm := (foldl_partition_mem g (initialReady g) [] [] x).2 hx
      rcases hm with hh | ⟨_, hc⟩
      · simp at hh
      · exact hc

/-- The invariant holds in every reachable state. -/
theorem reachable_inv (g : Graph) (cs : List Handshake) (s : SysState) (hw : WF g)
    (hcs : InitCells cs) (hr : Reachable g cs s) : SysInv g s := by
  induction hr with
  | refl => exact init_inv g cs hcs
  | tail hsteps hstep ih => exact sysStep_inv g hw _ _ ih hstep

/-! ## Helper lemmas: PTO scheduler and completion loops -/

/-- The task found by the `schedule_tasks` search loop is ready and of the
requested core type. -/
theorem findReadyIdxAux_spec : ∀ (tasks : List PTOTask) (ctype k tid : Nat),
    findReadyIdxAux tasks ctype k = some tid →
    k ≤ tid ∧ ∃ tk, tasks[tid - k]? = some tk ∧
      tk.status = PTO_TASK_READY ∧ tk.core_type = ctype := by
  intro tasks
  induction tasks with
  | nil => intro ctype k tid h; simp [findReadyIdxAux] at h
  | cons tk rest ih =>
      intro ctype k tid h
      simp only [findReadyIdxAux] at h
      by_cases hc : tk.status == PTO_TASK_READY && tk.core_type == ctype
      · rw [if_pos hc] at h
        injection h with h
        subst h
        simp only [beq_iff_eq, Bool.and_eq_true] at hc
        exact ⟨le_refl _, tk, by simp, hc.1, hc.2⟩
      · rw [if_neg hc] at h
        obtain ⟨hk, tk', hget, hst, hct⟩ := ih ctype (k + 1) tid h
        refine ⟨by omega, tk', ?_, hst, hct⟩
        rw [show tid - k = (tid - (k + 1)) + 1 from by omega, List.getElem?_cons_succ]
        exact hget

/-- `updateDep` at another index does not change a task record. -/
theorem updateDep_get_ne (tasks : List PTOTask) (w v : Nat) (h : w ≠ v) :
    (updateDep tasks w)[v]? = tasks[v]? := by
  unfold updateDep
  cases htasks : tasks[w]? with
  | none => rfl
  | some dt => exact List.getElem?_set_ne h

/-- The completion loop does not touch tasks outside the dependents list. -/
theorem updateDeps_not_mem : ∀ (l : List Nat) (tasks : List PTOTask) (v : Nat), v ∉ l →
    (updateDeps tasks l)[v]? = tasks[v]? := by
  intro l
  induction l with
  | nil => intro tasks v _; rfl
  | cons w rest ih =>
      intro tasks v hv
      have hvw : w ≠ v := fun h => hv (h ▸ List.mem_cons_self w rest)
      have hrest : v ∉ rest := fun h => hv (List.mem_cons_of_mem _ h)
      show (updateDeps (updateDep tasks w) rest)[v]? = tasks[v]?
      rw [ih (updateDep tasks w) v hrest, updateDep_get_ne tasks w v hvw]

/-- Effect of the completion loop of `check_completions` on a pending
dependent occurring once in the list: its `deps_remaining` is decremented
by exactly one, and it is marked `PTO_TASK_READY` exactly when the
decrement reaches zero. -/
theorem updateDeps_effect : ∀ (l : List Nat) (tasks : List PTOTask) (v : Nat) (dt : PTOTask),
    l.Nodup → v ∈ l → tasks[v]? = some dt → dt.status = PTO_TASK_PENDING →
    ∃ dt', (updateDeps tasks l)[v]? = some dt' ∧
      dt'.deps_remaining = dt.deps_remaining - 1 ∧
      (dt'.status = PTO_TASK_READY ↔ dt.deps_remaining - 1 = 0) := by
  intro l
  induction l with
  | nil => intro tasks v dt _ hv; cases hv
  | cons w rest ih =>
      intro tasks v dt hnd hv hget hst
      rcases List.nodup_cons.mp hnd with ⟨hw, hrest⟩
      by_cases hvw : v = w
      · subst hvw
        have hlt : v < tasks.length := (List.getElem?_eq_some.mp hget).1
        by_cases hready : dt.deps_remaining - 1 = 0 ∧ dt.status = PTO_TASK_PENDING
        · refine ⟨{ { dt with status := PTO_TASK_READY }
              with deps_remaining := dt.deps_remaining - 1 }, ?_, rfl, ?_⟩
          · show (updateDeps (updateDep tasks v) rest)[v]? = _
            rw [updateDeps_not_mem rest (updateDep tasks v) v hw]
            unfold updateDep
            rw [hget]
            simp only [if_pos hready]
            exact List.getElem?_set_eq hlt
          · simp only [true_iff]
            exact hready.1
        · have hnz : ¬ (dt.deps_remaining - 1 = 0) := fun h => hready ⟨h, hst⟩
          refine ⟨{ dt with deps_remaining := dt.deps_remaining - 1 }, ?_, rfl, ?_⟩
          · show (updateDeps (updateDep tasks v) rest)[v]? = _
            rw [updateDeps_not_mem rest (updateDep tasks v) v hw]
            unfold updateDep
            rw [hget]
            simp only [if_neg hready]
            exact List.getElem?_set_eq hlt
          · constructor
            · intro hr
              have : dt.status = PTO_TASK_READY := hr
              rw [hst] at this
              exact absurd this (by decide)
            · intro hr
              exact absurd hr hnz
      · have hvrest : v ∈ rest := by
          rcases List.mem_cons.mp hv with h | h
          · exact absurd h hvw
          · exact h
        have hget' : (updateDep tasks w)[v]? = some dt := by
          rw [updateDep_get_ne tasks w v (fun h => hvw h.symm)]
          exact hget
        exact ih (updateDep tasks w) v dt hrest hvrest hget' hst

/-! ## Helper lemmas: exit barrier and witnesses -/

/-- The first `thread_num - 1` epilogue calls only count up. -/
theorem epilogue_iterate (tn : Nat) (st : ExecShared) (h0 : st.finishedCount = 0) :
    ∀ k, k < tn → (epilogue tn)^[k] st = { st with finishedCount := k } := by
  intro k
  induction k with
  | zero =>
      intro _
      simp only [Function.iterate_zero, id]
      rw [← h0]
  | succ k ih =>
      intro hk
      rw [Function.iterate_succ_apply', ih (by omega)]
      unfold epilogue
      rw [if_neg (show ¬ (k + 1 = tn) from by omega)]

/-- The last epilogue call resets everything. -/
theorem epilogue_last (tn : Nat) (st : ExecShared) (h0 : st.finishedCount = 0)
    (hpos : 0 < tn) : (epilogue tn)^[tn] st = clearedShared := by
  obtain ⟨m, rfl⟩ : ∃ m, tn = m + 1 := ⟨tn - 1, by omega⟩
  rw [Function.iterate_succ_apply', epilogue_iterate (m + 1) st h0 m (by omega)]
  unfold epilogue
  rw [if_pos rfl]
  rfl

/-- The one-task graph `g0` is well formed. -/
theorem wf_g0 : WF g0 := by
  refine ⟨?_, ?_, ?_, ?_⟩
  · intro t v hv
    cases t with
    | zero => simp [fanoutOf, g0] at hv
    | succ k => simp [fanoutOf, g0] at hv
  · intro t
    cases t with
    | zero => simp [fanoutOf, g0]
    | succ k => simp [fanoutOf, g0]
  · intro t ht
    have ht0 : t = 0 := by simpa [g0] using ht
    subst ht0
    simp [fanin0Of, indeg, g0, fanoutOf, qcount]
  · intro t ht
    have ht0 : t = 0 := by simpa [g0] using ht
    subst ht0
    simp [ctypeOf, g0]

/-- The one-cell handshake array `cs0` starts idle. -/
theorem initcells_cs0 : InitCells cs0 := by
  intro c hc
  have : c = hsIdle := by simpa [cs0] using hc
  subst this
  exact ⟨rfl, rfl⟩

/-! ## Claim theorems -/

/-- C1 (counterexample): the worker loop of `aicore_kernel.cpp` dispatches
the kernel of a cell whose `task_status` is 0 — the cell
`{control 0, task &tasks[3], task_status 0}` makes the loop body run task
3 even though `task_status == 1` does not hold, refuting the claim that a
kernel is dispatched only when `task != 0` and `task_status == 1` both
hold. -/
theorem c1_worker_dispatch_with_status_zero :
    (aicoreBody { control := 0, task := some 3, task_status := 0 }).1 = WorkerObs.run 3 ∧
    ({ control := 0, task := some 3, task_status := 0 } : PTOHandshake).task_status = 0 :=
  ⟨rfl, rfl⟩

/-- C1 (amended): in every iteration of the worker loop of
`aicore_kernel.cpp`, the worker dispatches a kernel exactly when
`cell.control != 1` and `cell.task != 0`; `task_status` is not consulted,
so the worker can and does dispatch from a cell whose `task_status` is 0. -/
theorem c1_worker_dispatches_iff_task_nonzero :
    ∀ c : PTOHandshake,
      (aicoreBody c).1.isRun = true ↔ (c.control ≠ 1 ∧ c.task.isSome = true) := by
  intro c
  unfold aicoreBody
  by_cases hc : c.control = 1
  · simp [hc, WorkerObs.isRun]
  · cases ht : c.task <;> simp [hc, ht, WorkerObs.isRun]

/-- C2: evaluating `schedule_tasks` at the failing input.  The single cell
holds a completed-but-uncollected task (`task = &tasks[1]`,
`task_status == 0`); the pass nevertheless dispatches ready task 0 into it,
overwriting the uncollected completion, because the skip test at
`aicpu_kernel.cpp` line 111 only skips cells with
`task != 0 && task_status != 0`. -/
theorem c2_schedule_overwrites_uncollected_cell :
    (completedCell.task = some 1 ∧ completedCell.task_status = 0) ∧
    ((schedule_tasks { tasks := ptoTasks2, cells := [completedCell] } 1 1).cells[0]?).map
        (fun c => (c.task, c.task_status)) = some (some 0, 1) :=
  ⟨⟨rfl, rfl⟩, rfl⟩

/-- C7 (counterexample): with `nrAic = 0` and two scheduler threads — a
configuration `MultiThreadManager::Init` accepts (`mtmInit 2 6` returns
0) — the assignment rows of threads 0 and 1 both contain core index 1, so
the per-thread assignments are not disjoint. -/
theorem c7_assignment_overlap :
    (mtmInit 2 6).1 = 0 ∧ 1 ∈ coreAssignment 0 0 ∧ 1 ∈ coreAssignment 0 1 := by
  refine ⟨by decide, by decide, by decide⟩

/-- C7 (amended): `Init` gives thread `t` exactly the core indices
`{t, nrAic + 2t, nrAic + 2t + 1}`; the assignments of distinct threads are
disjoint provided every thread index is below `nrAic` (the documented
1 AIC : 2 AIV layout), which the code does not check. -/
theorem c7_assignment_rows_and_disjointness :
    (∀ num_aic t, coreAssignment num_aic t = [t, num_aic + 2 * t, num_aic + 2 * t + 1]) ∧
    (∀ num_aic t1 t2 x, t1 < num_aic → t2 < num_aic → t1 ≠ t2 →
      x ∈ coreAssignment num_aic t1 → x ∉ coreAssignment num_aic t2) := by
  constructor
  · intro num_aic t
    simp [coreAssignment]
    omega
  · intro num_aic t1 t2 x h1 h2 hne hx hy
    simp only [coreAssignment, List.mem_cons, List.not_mem_nil, or_false] at hx hy
    omega

/-- C7 (witness): instantiating the amended disjointness at `nrAic = 2`,
threads 0 and 1, core index 0. -/
theorem c7_assignment_witness :
    ((0 : Nat) < 2 ∧ (1 : Nat) < 2 ∧ (0 : Nat) ≠ 1 ∧ 0 ∈ coreAssignment 2 0) ∧
    0 ∉ coreAssignment 2 1 :=
  ⟨⟨by decide, by decide, by decide, by decide⟩,
    c7_assignment_rows_and_disjointness.2 2 0 1 0 (by decide) (by decide) (by decide)
      (by decide)⟩

/-- C8: when the clamped thread count exceeds `MAX_AICPU_THREADS` or the
computed cores-per-thread exceeds `MAX_CORES_PER_THREAD`, `Init` returns -1
with `init_failed_` set, and the wait loop of
`DynTileFwkBackendKernelServer` makes every scheduler thread return the
error (`some false`) without entering its execution loop. -/
theorem c8_init_failure_aborts_threads :
    ∀ scheCpuNum coreNum : Nat,
      ((if scheCpuNum = 0 then 1 else scheCpuNum) > MAX_AICPU_THREADS ∨
        coreNum / (if scheCpuNum = 0 then 1 else scheCpuNum) > MAX_CORES_PER_THREAD) →
      (mtmInit scheCpuNum coreNum).1 = -1 ∧
      (mtmInit scheCpuNum coreNum).2.initFailed = true ∧
      serverGate (mtmInit scheCpuNum coreNum).2 = some false := by
  intro sc cn h
  unfold mtmInit serverGate
  rcases h with h | h
  · rw [if_pos (Or.inr h)]
    exact ⟨rfl, rfl, rfl⟩
  · by_cases h1 : (if sc = 0 then 1 else sc) < 1 ∨ (if sc = 0 then 1 else sc) > MAX_AICPU_THREADS
    · rw [if_pos h1]
      exact ⟨rfl, rfl, rfl⟩
    · rw [if_neg h1, if_pos h]
      exact ⟨rfl, rfl, rfl⟩

/-- C8 (witness): `scheCpuNum = 5` exceeds the maximum of 4; `Init` fails
and the thread gate returns the error. -/
theorem c8_init_failure_witness :
    (((if (5 : Nat) = 0 then 1 else 5) > MAX_AICPU_THREADS ∨
        (0 : Nat) / (if (5 : Nat) = 0 then 1 else 5) > MAX_CORES_PER_THREAD)) ∧
    ((mtmInit 5 0).1 = -1 ∧ (mtmInit 5 0).2.initFailed = true ∧
      serverGate (mtmInit 5 0).2 = some false) :=
  ⟨by decide, c8_init_failure_aborts_threads 5 0 (by decide)⟩

/-- C9: starting from any shared state with `finished_count_ = 0`, the
`k`-th of `thread_num` epilogue passes (`graphexecutor.cpp` lines 210-221)
increments `finished_count_` from `k - 1` to `k` and changes nothing else,
and the final pass — the one whose post-increment value equals
`thread_num` — resets both ready-queue counts, `completed_tasks_`,
`total_tasks_`, `init_done_` and `finished_count_`, so the next execute
starts from cleared counters. -/
theorem c9_exit_barrier_reset (thread_num : Nat) (st : ExecShared)
    (hpos : 0 < thread_num) (h0 : st.finishedCount = 0) :
    (∀ k, k < thread_num →
      (epilogue thread_num)^[k] st = { st with finishedCount := k }) ∧
    (epilogue thread_num)^[thread_num] st = clearedShared :=
  ⟨epilogue_iterate thread_num st h0, epilogue_last thread_num st h0 hpos⟩

/-- C9 (witness): two threads run the epilogue on a dirty shared state;
the intermediate state only counts, and the final state is fully reset. -/
theorem c9_exit_barrier_witness :
    ((0 : Nat) < 2 ∧ sharedW.finishedCount = 0) ∧
    ((∀ k, k < 2 → (epilogue 2)^[k] sharedW = { sharedW with finishedCount := k }) ∧
      (epilogue 2)^[2] sharedW = clearedShared) :=
  ⟨⟨by decide, rfl⟩, c9_exit_barrier_reset 2 sharedW (by decide) rfl⟩

/-- C10 (counterexample): with `scheCpuNum = 0` and `core_num = 73`, `Init`
clamps the thread count to 1 but then fails (cores-per-thread 73 exceeds
the static maximum 72) and sets `init_failed_`, refuting the claim that a
zero `scheCpuNum` always proceeds without setting `init_failed`. -/
theorem c10_zero_schecpu_can_still_fail :
    (mtmInit 0 73).2.threadNum = 1 ∧ (mtmInit 0 73).1 = -1 ∧
    (mtmInit 0 73).2.initFailed = true := by
  refine ⟨by decide, by decide, by decide⟩

/-- C10 (amended): a zero `scheCpuNum` is silently clamped to one thread
and never fails the thread-count check; initialization then succeeds
(returning 0, with `init_done_` set and `init_failed_` clear) provided the
resulting cores-per-thread value `core_num` is within
`MAX_CORES_PER_THREAD`. -/
theorem c10_zero_schecpu_clamped_to_one :
    (∀ coreNum : Nat, (mtmInit 0 coreNum).2.threadNum = 1) ∧
    (∀ coreNum : Nat, coreNum ≤ MAX_CORES_PER_THREAD →
      (mtmInit 0 coreNum).1 = 0 ∧ (mtmInit 0 coreNum).2.initFailed = false ∧
      (mtmInit 0 coreNum).2.initDone = true) := by
  have hmax : MAX_CORES_PER_THREAD = 72 := rfl
  constructor
  · intro cn
    by_cases h : MAX_CORES_PER_THREAD < cn
    · simp [mtmInit, MAX_AICPU_THREADS, h]
    · simp [mtmInit, MAX_AICPU_THREADS, h]
  · intro cn hcn
    have h : ¬ MAX_CORES_PER_THREAD < cn := by omega
    simp [mtmInit, MAX_AICPU_THREADS, h]

/-- C10 (witness): `scheCpuNum = 0` with 8 cores initializes successfully
as a single thread. -/
theorem c10_zero_schecpu_witness :
    ((8 : Nat) ≤ MAX_CORES_PER_THREAD) ∧
    ((mtmInit 0 8).2.threadNum = 1 ∧ (mtmInit 0 8).1 = 0 ∧
      (mtmInit 0 8).2.initFailed = false ∧ (mtmInit 0 8).2.initDone = true) :=
  ⟨by decide, ⟨c10_zero_schecpu_clamped_to_one.1 8,
    (c10_zero_schecpu_clamped_to_one.2 8 (by decide)).1,
    (c10_zero_schecpu_clamped_to_one.2 8 (by decide)).2.1,
    (c10_zero_schecpu_clamped_to_one.2 8 (by decide)).2.2⟩⟩

/-- C3 (counterexample): from the initialized one-task system, the
scheduler dispatches task 0 and the worker loop of `aicore_kernel.cpp`
then executes the task's kernel in two consecutive polling iterations —
after the first iteration clears `task_status`, the cell still has
`task != 0`, so the task-pointer doorbell fires again.  The resulting
state is reachable and has executed task 0's kernel twice. -/
theorem c3_reachable_double_execution :
    Reachable g0 cs0 reExecState ∧ reExecState.execCount 0 = 2 := by
  constructor
  · have h1 : SysStep g0 (initState g0 cs0)
        (dispatchAicAt (initState g0 cs0) 0 hsIdle 0 []) :=
      SysStep.dispatchAic (initState g0 cs0) 0 hsIdle 0 [] rfl rfl rfl rfl (by decide)
    have h2 : SysStep g0 (dispatchAicAt (initState g0 cs0) 0 hsIdle 0 [])
        (execAt (dispatchAicAt (initState g0 cs0) 0 hsIdle 0 []) 0 hsBusy 0) :=
      SysStep.exec (dispatchAicAt (initState g0 cs0) 0 hsIdle 0 []) 0 hsBusy 0
        rfl (by decide) rfl
    have h3 : SysStep g0
        (execAt (dispatchAicAt (initState g0 cs0) 0 hsIdle 0 []) 0 hsBusy 0)
        reExecState :=
      SysStep.exec (execAt (dispatchAicAt (initState g0 cs0) 0 hsIdle 0 []) 0 hsBusy 0)
        0 hsDone 0 rfl (by decide) rfl
    exact Relation.ReflTransGen.tail
      (Relation.ReflTransGen.tail (Relation.ReflTransGen.tail Relation.ReflTransGen.refl h1)
        h2) h3
  · rfl

/-- C3 (amended): over one whole execute of the graph-executor scheduler
paired with the `aicore_kernel.cpp` worker, in every reachable state every
task has been dispatched (written into a cell, transitioning it to
Running) at most once and has had its completion collected and counted at
most once; the worker-side kernel execution, however, is not at-most-once
(see the counterexample). -/
theorem c3_at_most_once_dispatch_and_collect (g : Graph) (cs : List Handshake)
    (s : SysState) (hw : WF g) (hcs : InitCells cs) (hr : Reachable g cs s) (t : Nat) :
    s.dispCount t ≤ 1 ∧ s.collectCount t ≤ 1 := by
  obtain ⟨hA, hC, hD, hE, hQ⟩ := reachable_inv g cs s hw hcs hr
  by_cases ht : t < g.tasks.length
  · have h1 := hC t ht
    have h2 := hE t
    by_cases hz : s.fanin t = 0
    · rw [if_pos hz] at h1
      omega
    · rw [if_neg hz] at h1
      omega
  · have h1 := hD t (le_of_not_lt ht)
    omega

/-- C3 (witness): the amended at-most-once property instantiated at the
one-task system in its initial state. -/
theorem c3_at_most_once_witness :
    WF g0 ∧ InitCells cs0 ∧
    (initState g0 cs0).dispCount 0 ≤ 1 ∧ (initState g0 cs0).collectCount 0 ≤ 1 := by
  have h := c3_at_most_once_dispatch_and_collect g0 cs0 (initState g0 cs0) wf_g0
    initcells_cs0 Relation.ReflTransGen.refl 0
  exact ⟨wf_g0, initcells_cs0, h.1, h.2⟩

/-- C4: when a scheduler collects a completion of task `t`, then for every
successor `v` in `t`'s fanout it decrements `v`'s fan-in counter by exactly
one, and `v` is enqueued exactly when that decrement makes the counter
reach zero — in `graphexecutor.cpp` (first conjunct) `v` is pushed onto
the ready queue of `v`'s core kind and the other queue is untouched; in
`check_completions` of `aicpu_kernel.cpp` (second conjunct) the pending
dependent is marked `PTO_TASK_READY`. -/
theorem c4_collect_decrements_and_enqueues :
    (∀ (g : Graph) (s : SysState) (t v : Nat),
      (fanoutOf g t).Nodup → v ∈ fanoutOf g t →
      (propagate g s (fanoutOf g t)).fanin v = s.fanin v - 1 ∧
      qcount v (propagate g s (fanoutOf g t)).qAic
        = qcount v s.qAic + (if s.fanin v - 1 = 0 ∧ ctypeOf g v = 0 then 1 else 0) ∧
      qcount v (propagate g s (fanoutOf g t)).qAiv
        = qcount v s.qAiv + (if s.fanin v - 1 = 0 ∧ ctypeOf g v ≠ 0 then 1 else 0)) ∧
    (∀ (tasks : List PTOTask) (l : List Nat) (v : Nat) (dt : PTOTask),
      l.Nodup → v ∈ l → tasks[v]? = some dt → dt.status = PTO_TASK_PENDING →
      ∃ dt', (updateDeps tasks l)[v]? = some dt' ∧
        dt'.deps_remaining = dt.deps_remaining - 1 ∧
        (dt'.status = PTO_TASK_READY ↔ dt.deps_remaining - 1 = 0)) := by
  constructor
  · intro g s t v hnd hv
    have h := propagate_effect g (fanoutOf g t) hnd v hv s
    have hiff1 : (s.fanin v = 1 ∧ ctypeOf g v = 0)
        ↔ (s.fanin v - 1 = 0 ∧ ctypeOf g v = 0) := by
      constructor <;> (rintro ⟨ha, hb⟩; exact ⟨by omega, hb⟩)
    have hiff2 : (s.fanin v = 1 ∧ ctypeOf g v ≠ 0)
        ↔ (s.fanin v - 1 = 0 ∧ ctypeOf g v ≠ 0) := by
      constructor <;> (rintro ⟨ha, hb⟩; exact ⟨by omega, hb⟩)
    refine ⟨h.1, ?_, ?_⟩
    · rw [h.2.1, if_congr hiff1 rfl rfl]
    · rw [h.2.2, if_congr hiff2 rfl rfl]
  · intro tasks l v dt hnd hv hget hst
    exact updateDeps_effect l tasks v dt hnd hv hget hst

/-- C4 (witness): both conjuncts instantiated — collecting task 0 of
`gEdge` decrements successor 1 from 1 to 0 and pushes it on the AIV queue,
and the pending one-dependency PTO task is decremented to 0 and marked
ready. -/
theorem c4_collect_witness :
    ((fanoutOf gEdge 0).Nodup ∧ 1 ∈ fanoutOf gEdge 0 ∧
      pendTasks[0]? = some { deps_remaining := 1 } ∧
      ({ deps_remaining := 1 } : PTOTask).status = PTO_TASK_PENDING ∧
      ([0] : List Nat).Nodup ∧ 0 ∈ ([0] : List Nat)) ∧
    ((propagate gEdge (initState gEdge []) (fanoutOf gEdge 0)).fanin 1
        = (initState gEdge []).fanin 1 - 1 ∧
      qcount 1 (propagate gEdge (initState gEdge []) (fanoutOf gEdge 0)).qAic
        = qcount 1 (initState gEdge []).qAic
          + (if (initState gEdge []).fanin 1 - 1 = 0 ∧ ctypeOf gEdge 1 = 0 then 1 else 0) ∧
      qcount 1 (propagate gEdge (initState gEdge []) (fanoutOf gEdge 0)).qAiv
        = qcount 1 (initState gEdge []).qAiv
          + (if (initState gEdge []).fanin 1 - 1 = 0 ∧ ctypeOf gEdge 1 ≠ 0 then 1 else 0)) ∧
    (∃ dt', (updateDeps pendTasks [0])[0]? = some dt' ∧
      dt'.deps_remaining = ({ deps_remaining := 1 } : PTOTask).deps_remaining - 1 ∧
      (dt'.status = PTO_TASK_READY
        ↔ ({ deps_remaining := 1 } : PTOTask).deps_remaining - 1 = 0)) := by
  refine ⟨⟨by decide, by decide, rfl, rfl, by decide, by decide⟩, ?_, ?_⟩
  · exact c4_collect_decrements_and_enqueues.1 gEdge (initState gEdge []) 0 1
      (by decide) (by decide)
  · exact c4_collect_decrements_and_enqueues.2 pendTasks [0] 0 _ (by decide) (by decide)
      rfl rfl

/-- C5: the publication sequence of a dispatch writes the `task` pointer
first and `task_status = 1` second (both in `graphexecutor.cpp` and in
`schedule_tasks` of `aicpu_kernel.cpp`), so starting from a cell with
`task_status = 0` no prefix of the publication leaves the cell with
`task_status == 1` while `task` still holds the idle value 0. -/
theorem c5_publication_order (c : Handshake) (t : Nat) (h0 : c.task_status = 0) :
    ∀ n : Nat, ¬ ((afterWrites c ((publishWrites t).take n)).task_status = 1 ∧
      (afterWrites c ((publishWrites t).take n)).task = none) := by
  intro n
  rcases n with _ | _ | n
  · rintro ⟨h1, _⟩
    simp only [publishWrites, List.take_zero, afterWrites, List.foldl_nil] at h1
    omega
  · rintro ⟨_, h2⟩
    simp [publishWrites, afterWrites, applyWrite] at h2
  · rintro ⟨_, h2⟩
    simp [publishWrites, afterWrites, applyWrite] at h2

/-- C5 (witness): the publication-order property at the idle cell and the
one-write prefix (pointer written, doorbell not yet rung). -/
theorem c5_publication_witness :
    hsIdle.task_status = 0 ∧
    ¬ ((afterWrites hsIdle ((publishWrites 7).take 1)).task_status = 1 ∧
      (afterWrites hsIdle ((publishWrites 7).take 1)).task = none) :=
  ⟨rfl, c5_publication_order hsIdle 7 rfl 1⟩

/-- C6: kind affinity of every dispatch.  First conjunct: in the
graph-executor system, whenever a step writes a task pointer `t` into a
cell that was empty, the task's core type equals the cell's `core_type`
(the dispatch phase pops only from the queue matching the cell's kind, and
reachable queues hold only tasks of their kind).  Second conjunct: the
task selected by `schedule_tasks` for a core of positional type `ctype` is
a ready task of exactly that core type. -/
theorem c6_dispatch_kind_affinity :
    (∀ (g : Graph) (cs : List Handshake) (s s' : SysState) (i : Nat)
        (c c' : Handshake) (t : Nat),
      WF g → InitCells cs → Reachable g cs s → SysStep g s s' →
      s.cells[i]? = some c → c.task = none →
      s'.cells[i]? = some c' → c'.task = some t →
      ctypeOf g t = c.core_type) ∧
    (∀ (tasks : List PTOTask) (ctype tid : Nat),
      findReadyIdxAux tasks ctype 0 = some tid →
      ∃ tk, tasks[tid]? = some tk ∧ tk.core_type = ctype ∧
        tk.status = PTO_TASK_READY) := by
  constructor
  · intro g cs s s' i c c' t hw hcs hr hstep hcell htasknone hcell' htask'
    obtain ⟨hA, hC, hD, hE, hQ⟩ := reachable_inv g cs s hw hcs hr
    cases hstep with
    | exec i2 c2 t2 hcell2 hctrl2 htask2 =>
        exfalso
        by_cases hii : i2 = i
        · subst hii
          have hlen : i2 < s.cells.length := (List.getElem?_eq_some.mp hcell2).1
          have hx : (execAt s i2 c2 t2).cells[i2]?
              = some { c2 with task_status := 0 } := by
            show (s.cells.set i2 _)[i2]? = _
            exact List.getElem?_set_eq hlen
          rw [hcell'] at hx
          injection hx with hx
          have hc2 : c2 = c := by
            rw [hcell2] at hcell
            injection hcell
          have hct : c'.task = c2.task := by rw [hx]
          rw [hct, hc2, htasknone] at htask'
          simp at htask'
        · have hx : (execAt s i2 c2 t2).cells[i]? = s.cells[i]? := by
            show (s.cells.set i2 _)[i]? = _
            exact List.getElem?_set_ne hii
          rw [hcell', hcell] at hx
          injection hx with hx
          rw [hx, htasknone] at htask'
          simp at htask'
    | collect i2 c2 t2 hcell2 hstat2 htask2 =>
        exfalso
        have hpc := (propagate_frame g (fanoutOf g t2) s).1
        by_cases hii : i2 = i
        · subst hii
          have hlen : i2 < (propagate g s (fanoutOf g t2)).cells.length := by
            rw [hpc]
            exact (List.getElem?_eq_some.mp hcell2).1
          have hx : (collectAt g s i2 c2 t2).cells[i2]?
              = some { c2 with task := none } := by
            show ((propagate g s (fanoutOf g t2)).cells.set i2 _)[i2]? = _
            exact List.getElem?_set_eq hlen
          rw [hcell'] at hx
          injection hx with hx
          have hct : c'.task = none := by rw [hx]
          rw [hct] at htask'
          simp at htask'
        · have hx : (collectAt g s i2 c2 t2).cells[i]? = s.cells[i]? := by
            show ((propagate g s (fanoutOf g t2)).cells.set i2 _)[i]? = _
            rw [List.getElem?_set_ne hii, hpc]
          rw [hcell', hcell] at hx
          injection hx with hx
          rw [hx, htasknone] at htask'
          simp at htask'
    | dispatchAic i2 c2 t2 q' hcell2 hstat2 htask2 hkind2 hq2 =>
        by_cases hii : i2 = i
        · subst hii
          have hlen : i2 < s.cells.length := (List.getElem?_eq_some.mp hcell2).1
          have hx : (dispatchAicAt s i2 c2 t2 q').cells[i2]?
              = some { c2 with task := some t2, task_status := 1 } := by
            show (s.cells.set i2 _)[i2]? = _
            exact List.getElem?_set_eq hlen
          rw [hcell'] at hx
          injection hx with hx
          have hct : c'.task = some t2 := by rw [hx]
          have ht2 : t = t2 := by
            rw [hct] at htask'
            injection htask' with h
            omega
          have hc2 : c2 = c := by
            rw [hcell2] at hcell
            injection hcell
          have hmem : t2 ∈ s.qAic := by
            rw [hq2]
            exact List.mem_cons_self t2 q'
          rw [ht2, ← hc2, hkind2]
          exact hQ.1 t2 hmem
        · exfalso
          have hx : (dispatchAicAt s i2 c2 t2 q').cells[i]? = s.cells[i]? := by
            show (s.cells.set i2 _)[i]? = _
            exact List.getElem?_set_ne hii
          rw [hcell', hcell] at hx
          injection hx with hx
          rw [hx, htasknone] at htask'
          simp at htask'
    | dispatchAiv i2 c2 t2 q' hcell2 hstat2 htask2 hkind2 hq2 =>
        by_cases hii : i2 = i
        · subst hii
          have hlen : i2 < s.cells.length := (List.getElem?_eq_some.mp hcell2).1
          have hx : (dispatchAivAt s i2 c2 t2 q').cells[i2]?
              = some { c2 with task := some t2, task_status := 1 } := by
            show (s.cells.set i2 _)[i2]? = _
            exact List.getElem?_set_eq hlen
          rw [hcell'] at hx
          injection hx with hx
          have hct : c'.task = some t2 := by rw [hx]
          have ht2 : t = t2 := by
            rw [hct] at htask'
            injection htask' with h
            omega
          have hc2 : c2 = c := by
            rw [hcell2] at hcell
            injection hcell
          have hmem : t2 ∈ s.qAiv := by
            rw [hq2]
            exact List.mem_cons_self t2 q'
          have hne0 : ctypeOf g t2 ≠ 0 := hQ.2 t2 hmem
          have htlt : t2 < g.tasks.length := by
            by_contra hcon
            have := (hD t2 (le_of_not_lt hcon)).2.1
            have := qcount_pos_of_mem hmem
            omega
          have hk := hw.kinds t2 htlt
          rw [ht2, ← hc2, hkind2]
          omega
        · exfalso
          have hx : (dispatchAivAt s i2 c2 t2 q').cells[i]? = s.cells[i]? := by
            show (s.cells.set i2 _)[i]? = _
            exact List.getElem?_set_ne hii
          rw [hcell', hcell] at hx
          injection hx with hx
          rw [hx, htasknone] at htask'
          simp at htask'
  · intro tasks ctype tid h
    obtain ⟨-, tk, hget, hst, hct⟩ := findReadyIdxAux_spec tasks ctype 0 tid h
    rw [Nat.sub_zero] at hget
    exact ⟨tk, hget, hct, hst⟩

/-- C6 (witness): the dispatch of task 0 to the idle Cube cell of the
one-task system matches kinds, and the `schedule_tasks` search on
`ptoTasks2` for a Cube core finds the ready Cube task 0. -/
theorem c6_dispatch_kind_witness :
    (WF g0 ∧ InitCells cs0 ∧ hsIdle.task = none ∧ hsBusy.task = some 0 ∧
      findReadyIdxAux ptoTasks2 0 0 = some 0) ∧
    ctypeOf g0 0 = hsIdle.core_type ∧
    (∃ tk, ptoTasks2[0]? = some tk ∧ tk.core_type = 0 ∧
      tk.status = PTO_TASK_READY) := by
  have hstep : SysStep g0 (initState g0 cs0)
      (dispatchAicAt (initState g0 cs0) 0 hsIdle 0 []) :=
    SysStep.dispatchAic (initState g0 cs0) 0 hsIdle 0 [] rfl rfl rfl rfl (by decide)
  refine ⟨⟨wf_g0, initcells_cs0, rfl, rfl, rfl⟩, ?_, ?_⟩
  · exact c6_dispatch_kind_affinity.1 g0 cs0 (initState g0 cs0)
      (dispatchAicAt (initState g0 cs0) 0 hsIdle 0 []) 0 hsIdle hsBusy 0 wf_g0
      initcells_cs0 Relation.ReflTransGen.refl hstep rfl rfl rfl rfl
  · exact c6_dispatch_kind_affinity.2 ptoTasks2 0 0 rfl
